import Mathlib

/-!
# TOSCA device-support layer: address mapping, bus-error probing, interrupt
connection, raw memory transfers and the ELB descriptor cache

A shallow embedding of `toscaDevLibMapAddr`, `toscaDevLibProbe`,
`toscaDevLibConnectInterrupt` and `toscaDevLibDisconnectInterrupt`
(`toscaDevLib.c`), of `memfillFunc`, `memcopyFunc` and `memcompFunc`
(`toscaUtils.c`) and of `toscaElbFd` (`toscaElb.c`), together with the properties
of their status codes, calls of collaborators, lock handling and memory effects.

Conventions of the embedding:

* machine words of type `size_t` are natural numbers below `2 ^ w`, sums are
  reduced modulo `2 ^ w` where the C code computes them in `size_t`;
* host pointers are natural numbers, `0` being `NULL`; pointer arithmetic inside
  a mapped window is exact;
* calls of external collaborators (`toscaMap`, `toscaGetVmeErr`, the mutex, the
  bus access) are recorded in the result so that theorems can speak about them;
* memory is a map from addresses to bytes, elements of 1, 2, 4 or 8 bytes are
  loaded and stored in the byte order of the host, which is a parameter.
-/

namespace Tosca

/-! ## Status codes and constants -/

/-- Status codes of the EPICS device library used by `toscaDevLib.c`. The header
`devLib.h` belongs to EPICS base; the codes are kept symbolic, one constructor
per macro name, distinct names standing for distinct codes. -/
inductive DevStatus where
  | S_dev_success
  | S_dev_vecInstlFail
  | S_dev_vectorNotInUse
  | S_dev_badA16
  | S_dev_badA24
  | S_dev_badA32
  | S_dev_uknAddrType
  | S_dev_addrMapFail
  | S_dev_intDissFail
  | S_dev_noMemory
  | S_dev_addressNotFound
  | S_dev_noDevice
  | S_dev_badArgument
  | S_dev_badCRCSR
  deriving DecidableEq, Repr

open DevStatus

/-- Enumerator `atVMEA16` of `epicsAddressType`; the order of the enumerators is
the order of the table `addrTypeName` in `toscaDevLib.c`. -/
def atVMEA16 : Nat := 0
/-- Enumerator `atVMEA24` of `epicsAddressType`. -/
def atVMEA24 : Nat := 1
/-- Enumerator `atVMEA32` of `epicsAddressType`. -/
def atVMEA32 : Nat := 2
/-- Enumerator `atISA` of `epicsAddressType`. -/
def atISA : Nat := 3
/-- Enumerator `atVMECSR` of `epicsAddressType`. -/
def atVMECSR : Nat := 4
/-- Enumerator `atLast` of `epicsAddressType`, one past the last address type. -/
def atLast : Nat := 5

/-- Modelled from the spec: `VME_A16_MAX` of `vme.h`, which is not among the
sources; the extent of A16 is 64 KiB. -/
def VME_A16_MAX : Nat := 0x10000
/-- Modelled from the spec: `VME_A24_MAX` of `vme.h`, which is not among the
sources; the extent of A24 is 16 MiB. -/
def VME_A24_MAX : Nat := 0x1000000
/-- Modelled from the spec: `VME_A32_MAX` of `vme.h`, which is not among the
sources; the extent of A32 is 4 GiB. -/
def VME_A32_MAX : Nat := 0x100000000

/-- The remaining constants of `vme.h` used by `toscaDevLib.c`: the address-space
codes, the supervisory access flag and the device-specific extent of the CR/CSR
space. The header is not among the sources, so they are parameters. -/
structure VmeHeader where
  VME_A16 : Nat
  VME_A24 : Nat
  VME_A32 : Nat
  VME_CRCSR : Nat
  VME_SUPER : Nat
  VME_CRCSR_MAX : Nat
  deriving Repr

/-- `#define VME_DEFAULT_MODE VME_SUPER` -/
def VME_DEFAULT_MODE (h : VmeHeader) : Nat := h.VME_SUPER

/-- The values the Linux `vme.h` gives to the parameters of `VmeHeader`; used for
concrete evaluations only. -/
def linuxVme : VmeHeader where
  VME_A16 := 0x1
  VME_A24 := 0x2
  VME_A32 := 0x4
  VME_CRCSR := 0x10
  VME_SUPER := 0x1000
  VME_CRCSR_MAX := 0x1000000

/-! ## `toscaDevLibMapAddr` -/

/-- One call `toscaMap(aspace, address, size)` of the window allocator. -/
structure MapCall where
  aspace : Nat
  address : Nat
  size : Nat
  deriving DecidableEq, Repr

/-- The window allocator: the host pointer returned for a call, `0` for `NULL`. -/
abbrev Allocator := MapCall → Nat

/-- What one run of `toscaDevLibMapAddr` does: the returned status, the calls of
`toscaMap` in order, and the pointer stored into `*ppPhysicalAddress` (`none`
when the function returns without storing). -/
structure MapResult where
  status : DevStatus
  calls : List MapCall
  stored : Option Nat
  deriving DecidableEq, Repr

/-- Lines 103 to 111: the common tail after the `switch`, with the allocator call
`c` already made and `mapAddress` computed. -/
def mapFinish (c : MapCall) (mapAddress : Nat) : MapResult :=
  if mapAddress = 0 then
    ⟨S_dev_addrMapFail, [c], none⟩
  else
    ⟨S_dev_success, [c], some mapAddress⟩

/-- `toscaDevLibMapAddr(addrType, options, vmeAddress, size, ppPhysicalAddress)`
for a host whose `size_t` has `w` bits. -/
def toscaDevLibMapAddr (h : VmeHeader) (w : Nat) (toscaMap : Allocator)
    (addrType : Nat) (options : Nat) (vmeAddress size : Nat) : MapResult :=
  let _ := options
  if addrType ≥ atLast then
    ⟨S_dev_badArgument, [], none⟩
  else
    let sum := (vmeAddress + size) % 2 ^ w
    if sum < vmeAddress then
      ⟨S_dev_badArgument, [], none⟩
    else if addrType = atVMEA16 then
      if sum > VME_A16_MAX then
        ⟨S_dev_badA16, [], none⟩
      else
        let c : MapCall := ⟨h.VME_A16 ||| VME_DEFAULT_MODE h, 0, VME_A16_MAX⟩
        let mapAddress := toscaMap c
        let mapAddress := if mapAddress ≠ 0 then mapAddress + vmeAddress else mapAddress
        mapFinish c mapAddress
    else if addrType = atVMEA24 then
      if sum > VME_A24_MAX then
        ⟨S_dev_badA24, [], none⟩
      else if (vmeAddress ^^^ sum) &&& 0xc00000 = 0 then
        let c : MapCall := ⟨h.VME_A24 ||| VME_DEFAULT_MODE h, vmeAddress &&& 0xc00000, 0x400000⟩
        let mapAddress := toscaMap c
        let mapAddress :=
          if mapAddress ≠ 0 then mapAddress + (vmeAddress &&& 0x3fffff) else mapAddress
        mapFinish c mapAddress
      else
        let c : MapCall := ⟨h.VME_A24 ||| VME_DEFAULT_MODE h, vmeAddress, size⟩
        mapFinish c (toscaMap c)
    else if addrType = atVMEA32 then
      if sum > VME_A32_MAX then
        ⟨S_dev_badA32, [], none⟩
      else
        let c : MapCall := ⟨h.VME_A32 ||| VME_DEFAULT_MODE h, vmeAddress, size⟩
        mapFinish c (toscaMap c)
    else if addrType = atVMECSR then
      if sum > h.VME_CRCSR_MAX then
        ⟨S_dev_badCRCSR, [], none⟩
      else
        let c : MapCall := ⟨h.VME_CRCSR, vmeAddress, size⟩
        mapFinish c (toscaMap c)
    else
      ⟨S_dev_uknAddrType, [], none⟩

/-- The accepted requests: `inRange h addrType (vmeAddress + size)` says that the
request is for one of the four VME spaces and ends within the extent of its
space, which are the cases in which the `switch` reaches a call of `toscaMap`. -/
def inRange (h : VmeHeader) (addrType sum : Nat) : Prop :=
  (addrType = atVMEA16 ∧ sum ≤ 0x10000) ∨ (addrType = atVMEA24 ∧ sum ≤ 0x1000000) ∨
  (addrType = atVMEA32 ∧ sum ≤ 0x100000000) ∨ (addrType = atVMECSR ∧ sum ≤ h.VME_CRCSR_MAX)

instance (h : VmeHeader) (addrType sum : Nat) : Decidable (inRange h addrType sum) := by
  unfold inRange
  infer_instance

/-! ## `toscaDevLibProbe` -/

/-- The result of `toscaMapLookupAddr`: address space and bus address of a mapped
pointer, `aspace = 0` when the pointer belongs to no map. -/
structure toscaMapAddr_t where
  aspace : Nat
  address : Nat
  deriving DecidableEq, Repr

/-- The latched VME error record of `toscaReg.h`; the bit fields are kept as
natural numbers. -/
structure toscaMapVmeErr_t where
  address : Nat
  err : Nat
  over : Nat
  write : Nat
  timeout : Nat
  source : Nat
  id : Nat
  length : Nat
  mode : Nat
  deriving DecidableEq, Repr

/-- What a probe does to its surroundings, as counters: calls of
`epicsMutexMustLock(probeMutex)`, calls of `epicsMutexUnlock(probeMutex)`, calls
of `toscaGetVmeErr()` and accesses (reads or writes) of `*ptr`. The value moved
by an access is not modelled. -/
structure ProbeState where
  locks : Nat
  unlocks : Nat
  errReads : Nat
  accesses : Nat
  deriving DecidableEq, Repr

/-- `epicsMutexMustLock(probeMutex)` -/
def ProbeState.lock (st : ProbeState) : ProbeState := { st with locks := st.locks + 1 }

/-- `epicsMutexUnlock(probeMutex)` -/
def ProbeState.unlock (st : ProbeState) : ProbeState := { st with unlocks := st.unlocks + 1 }

/-- One call of `toscaGetVmeErr()` has been made. -/
def ProbeState.readErr (st : ProbeState) : ProbeState := { st with errReads := st.errReads + 1 }

/-- One read or write of `*ptr` has been made. -/
def ProbeState.access (st : ProbeState) : ProbeState := { st with accesses := st.accesses + 1 }

/-- The feed of latched errors: the record returned by the call of
`toscaGetVmeErr()` that is preceded by `n` earlier calls. -/
abbrev ErrFeed := Nat → toscaMapVmeErr_t

/-- Lines 180 to 220: the test whether the latched error `vme_err` came from our
access, that is, whether one of the four `return S_dev_noDevice` is reached. -/
def errorIsOurs (h : VmeHeader) (isWrite : Int) (vme_addr : toscaMapAddr_t)
    (vme_err : toscaMapVmeErr_t) : Bool :=
  if vme_err.source = 0 ∧ isWrite = (vme_err.write : Int) then
    match vme_err.mode with
    | 0 =>
      decide ((vme_addr.aspace &&& 0xfff) = h.VME_CRCSR ∧
        ((vme_err.address ^^^ vme_addr.address) &&& 0xfffffc) = 0)
    | 1 =>
      decide ((vme_addr.aspace &&& 0xfff) = h.VME_A16 ∧
        ((vme_err.address ^^^ vme_addr.address) &&& 0xfffc) = 0)
    | 2 =>
      decide ((vme_addr.aspace &&& 0xfff) = h.VME_A24 ∧
        ((vme_err.address ^^^ vme_addr.address) &&& 0xfffffc) = 0)
    | 3 =>
      decide ((vme_addr.aspace &&& 0xfff) = h.VME_A32 ∧
        ((vme_err.address ^^^ vme_addr.address) &&& 0xfffffffc) = 0)
    | _ => false
  else
    false

/-- The loop `for (i = 1; i < 1000; i++)` of `toscaDevLibProbe` with `n` iterations
still to run, followed by lines 234 and 235 when the loop runs out. -/
def probeLoop (h : VmeHeader) (toscaGetVmeErr : ErrFeed) (isWrite : Int) (wordSize : Nat)
    (vme_addr : toscaMapAddr_t) : Nat → ProbeState → DevStatus × ProbeState
  | 0, st => (S_dev_success, st.unlock)
  | n + 1, st =>
    if wordSize = 1 ∨ wordSize = 2 ∨ wordSize = 4 then
      let st := st.access
      let vme_err := toscaGetVmeErr st.errReads
      let st := st.readErr
      if vme_err.err = 0 then
        (S_dev_success, st)
      else if errorIsOurs h isWrite vme_addr vme_err then
        (S_dev_noDevice, st.unlock)
      else
        probeLoop h toscaGetVmeErr isWrite wordSize vme_addr n st
    else
      (S_dev_badArgument, st.unlock)

/-- `toscaDevLibProbe(isWrite, wordSize, ptr, pValue)`, started in state `st`. The
loop variable `i` takes the values `1, ..., 999`, so the loop has `1000 - 1`
iterations to run. -/
def toscaDevLibProbe (h : VmeHeader) (toscaMapLookupAddr : Nat → toscaMapAddr_t)
    (toscaGetVmeErr : ErrFeed) (isWrite : Int) (wordSize : Nat) (ptr : Nat)
    (st : ProbeState) : DevStatus × ProbeState :=
  let vme_addr := toscaMapLookupAddr ptr
  if vme_addr.aspace = 0 then
    (S_dev_addressNotFound, st)
  else
    let st := st.lock
    let st := st.readErr
    probeLoop h toscaGetVmeErr isWrite wordSize vme_addr (1000 - 1) st

/-- No error latched: the record with all fields zero. -/
def noVmeErr : toscaMapVmeErr_t := ⟨0, 0, 0, 0, 0, 0, 0, 0, 0⟩

/-- A bus timeout latched for a read from PCIe in A32 at `address`. -/
def a32ReadErr (address : Nat) : toscaMapVmeErr_t :=
  { address := address, err := 1, over := 0, write := 0, timeout := 1, source := 0, id := 0,
    length := 0, mode := 3 }

/-- A lookup that resolves every pointer `ptr` to the A32 bus address `ptr`. -/
def a32Lookup (h : VmeHeader) (ptr : Nat) : toscaMapAddr_t :=
  ⟨h.VME_A32 ||| h.VME_SUPER, ptr⟩

/-- An error record that matches the probing access: it comes from the local
source 0, has the direction of the access, carries the mode code of the address
space of the descriptor (0 CRCSR, 1 A16, 2 A24, 3 A32) and agrees with the
address of the descriptor under the mask of that mode. -/
def errMatches (h : VmeHeader) (isWrite : Int) (vme_addr : toscaMapAddr_t)
    (e : toscaMapVmeErr_t) : Prop :=
  e.source = 0 ∧ isWrite = (e.write : Int) ∧
  ((e.mode = 0 ∧ vme_addr.aspace &&& 0xfff = h.VME_CRCSR ∧
      e.address &&& 0xfffffc = vme_addr.address &&& 0xfffffc) ∨
   (e.mode = 1 ∧ vme_addr.aspace &&& 0xfff = h.VME_A16 ∧
      e.address &&& 0xfffc = vme_addr.address &&& 0xfffc) ∨
   (e.mode = 2 ∧ vme_addr.aspace &&& 0xfff = h.VME_A24 ∧
      e.address &&& 0xfffffc = vme_addr.address &&& 0xfffffc) ∨
   (e.mode = 3 ∧ vme_addr.aspace &&& 0xfff = h.VME_A32 ∧
      e.address &&& 0xfffffffc = vme_addr.address &&& 0xfffffffc))

instance (h : VmeHeader) (isWrite : Int) (vme_addr : toscaMapAddr_t) (e : toscaMapVmeErr_t) :
    Decidable (errMatches h isWrite vme_addr e) := by
  unfold errMatches
  infer_instance

/-- A spurious error record for the probing access: the error flag is set but the
record does not match the access. -/
def spuriousErr (h : VmeHeader) (isWrite : Int) (vme_addr : toscaMapAddr_t)
    (e : toscaMapVmeErr_t) : Prop :=
  e.err ≠ 0 ∧ ¬ errMatches h isWrite vme_addr e

instance (h : VmeHeader) (isWrite : Int) (vme_addr : toscaMapAddr_t) (e : toscaMapVmeErr_t) :
    Decidable (spuriousErr h isWrite vme_addr e) := by
  unfold spuriousErr
  infer_instance

/-- A feed whose first `k` records after the clearing read are A32 read errors at
the unrelated address `0x2000`, followed by the record `last` for ever. -/
def spuriousThen (k : Nat) (last : toscaMapVmeErr_t) : ErrFeed :=
  fun n => if n ≤ k then a32ReadErr 0x2000 else last

/-! ## Interrupt connection: `toscaDevLibConnectInterrupt` and
`toscaDevLibDisconnectInterrupt` -/

/-- One call `toscaIntrConnectHandler(intrmask, vec, function, parameter)` or
`toscaIntrDisconnectHandler(intrmask, vec, function, parameter)` of the interrupt
controller; pointers are natural numbers, `0` being `NULL`. -/
structure IntrCall where
  intrmask : Nat
  vec : Nat
  function : Nat
  parameter : Nat
  deriving DecidableEq, Repr

/-- A dispatch thread started by `epicsThreadCreate`: the interrupt mask and the
vector handed to `toscaIntrLoop`, and the thread id. -/
structure IntrThread where
  intrmask : Nat
  vec : Nat
  tid : Nat
  deriving DecidableEq, Repr

/-- The surroundings of the interrupt functions. The macros `INTR_VME_LVL_ANY` and
`INTR_USER1_INTR` belong to a header that is not among the sources and are
parameters. `calloc n` and `epicsThreadCreate n` are the results (`0` for `NULL`)
of the calls preceded by `n` earlier calls; the two controller functions give
the result of the call preceded by `n` earlier calls of the same function. -/
structure IntrEnv where
  INTR_VME_LVL_ANY : Nat
  INTR_USER1_INTR : Nat → Nat
  calloc : Nat → Nat
  epicsThreadCreate : Nat → Nat
  toscaIntrConnectHandler : Nat → IntrCall → Int
  toscaIntrDisconnectHandler : Nat → IntrCall → Int

/-- The state the interrupt functions work on: the table
`toscaDevLibInterruptThreads` (only the indices below `256+32` exist), the calls
of `epicsMutexMustLock(intrListMutex)` and `epicsMutexUnlock(intrListMutex)`, the
calls of `calloc` and `epicsThreadCreate`, the dispatch threads started, and the
calls of the controller. -/
structure IntrState where
  toscaDevLibInterruptThreads : Nat → Nat
  locks : Nat
  unlocks : Nat
  callocs : Nat
  threadCreates : Nat
  threads : List IntrThread
  connectCalls : List IntrCall
  disconnectCalls : List IntrCall

/-- `epicsMutexMustLock(intrListMutex)` -/
def IntrState.lock (st : IntrState) : IntrState := { st with locks := st.locks + 1 }

/-- `epicsMutexUnlock(intrListMutex)` -/
def IntrState.unlock (st : IntrState) : IntrState := { st with unlocks := st.unlocks + 1 }

/-- `toscaDevLibInterruptThreads[vectorNumber] = tid` -/
def IntrState.setThread (st : IntrState) (vectorNumber tid : Nat) : IntrState :=
  { st with toscaDevLibInterruptThreads :=
      fun v => if v = vectorNumber then tid else st.toscaDevLibInterruptThreads v }

/-- `toscaStartIntrThread(intrmask, vec, threadname, ...)`: the thread id, `0`
when `calloc` or `epicsThreadCreate` fails. The thread name is not modelled. -/
def toscaStartIntrThread (env : IntrEnv) (intrmask vec : Nat) (st : IntrState) :
    Nat × IntrState :=
  let theadArgs := env.calloc st.callocs
  let st := { st with callocs := st.callocs + 1 }
  if theadArgs = 0 then
    (0, st)
  else
    let tid := env.epicsThreadCreate st.threadCreates
    let st := { st with threadCreates := st.threadCreates + 1 }
    if tid = 0 then
      (tid, st)
    else
      (tid, { st with threads := st.threads ++ [⟨intrmask, vec, tid⟩] })

/-- Lines 339 to 349 of `toscaDevLibConnectInterrupt`: the call of the controller
and the two returns after it. -/
def connectHandler (env : IntrEnv) (vectorNumber function parameter : Nat) (st : IntrState) :
    DevStatus × IntrState :=
  let c : IntrCall :=
    ⟨if vectorNumber < 256 then env.INTR_VME_LVL_ANY else env.INTR_USER1_INTR (vectorNumber &&& 31),
      vectorNumber, function, parameter⟩
  let r := env.toscaIntrConnectHandler st.connectCalls.length c
  let st := { st with connectCalls := st.connectCalls ++ [c] }
  if r ≠ 0 then
    (S_dev_vecInstlFail, st.unlock)
  else
    (S_dev_success, st.unlock)

/-- Lines 327 to 331 of `toscaDevLibConnectInterrupt`: the call of
`toscaStartIntrThread` for a VME vector (below 256) or a user interrupt. -/
def startThreadFor (env : IntrEnv) (vectorNumber : Nat) (st : IntrState) : Nat × IntrState :=
  if vectorNumber < 256 then
    toscaStartIntrThread env env.INTR_VME_LVL_ANY vectorNumber st
  else
    toscaStartIntrThread env (env.INTR_USER1_INTR (vectorNumber &&& 31)) 0 st

/-- `toscaDevLibConnectInterrupt(vectorNumber, function, parameter)` -/
def toscaDevLibConnectInterrupt (env : IntrEnv) (vectorNumber function parameter : Nat)
    (st : IntrState) : DevStatus × IntrState :=
  if vectorNumber ≥ 256 + 32 then
    (S_dev_badArgument, st)
  else
    let st := st.lock
    if st.toscaDevLibInterruptThreads vectorNumber = 0 then
      let started := startThreadFor env vectorNumber st
      let st := started.2.setThread vectorNumber started.1
      if st.toscaDevLibInterruptThreads vectorNumber = 0 then
        (S_dev_noMemory, st.unlock)
      else
        connectHandler env vectorNumber function parameter st
    else
      connectHandler env vectorNumber function parameter st

/-- `toscaDevLibDisconnectInterrupt(vectorNumber, function)` -/
def toscaDevLibDisconnectInterrupt (env : IntrEnv) (vectorNumber function : Nat)
    (st : IntrState) : DevStatus × IntrState :=
  let c : IntrCall :=
    ⟨if vectorNumber < 256 then env.INTR_VME_LVL_ANY else env.INTR_USER1_INTR (vectorNumber &&& 31),
      vectorNumber, function, 0⟩
  let r := env.toscaIntrDisconnectHandler st.disconnectCalls.length c
  let st := { st with disconnectCalls := st.disconnectCalls ++ [c] }
  (if r ≠ 0 then S_dev_success else S_dev_vectorNotInUse, st)

/-- A request `toscaDevLibConnectInterrupt(vectorNumber, function, parameter)`. -/
structure ConnectReq where
  vectorNumber : Nat
  function : Nat
  parameter : Nat
  deriving DecidableEq, Repr

/-- The state after a sequence of calls of `toscaDevLibConnectInterrupt`. -/
def connectAll (env : IntrEnv) (reqs : List ConnectReq) (st : IntrState) : IntrState :=
  reqs.foldl
    (fun s r => (toscaDevLibConnectInterrupt env r.vectorNumber r.function r.parameter s).2) st

/-- The state at start-up: empty thread table, nothing called yet. -/
def IntrState.init : IntrState :=
  { toscaDevLibInterruptThreads := fun _ => 0, locks := 0, unlocks := 0, callocs := 0,
    threadCreates := 0, threads := [], connectCalls := [], disconnectCalls := [] }

/-- Surroundings in which every allocation, thread creation and controller call
succeeds: the `n`-th thread gets the id `n + 1`; `toscaIntrConnectHandler` returns
0 and `toscaIntrDisconnectHandler` returns 1. The values of the two macros are
arbitrary; used for concrete evaluations only. -/
def okEnv : IntrEnv where
  INTR_VME_LVL_ANY := 0xff
  INTR_USER1_INTR := fun n => 0x10000 <<< n
  calloc := fun n => 0x1000 + n
  epicsThreadCreate := fun n => n + 1
  toscaIntrConnectHandler := fun _ _ => 0
  toscaIntrDisconnectHandler := fun _ _ => 1

/-- Surroundings like `okEnv` in which `epicsThreadCreate` fails. -/
def noThreadEnv : IntrEnv := { okEnv with epicsThreadCreate := fun _ => 0 }

/-- Surroundings like `okEnv` in which `toscaIntrConnectHandler` fails. -/
def noConnectEnv : IntrEnv := { okEnv with toscaIntrConnectHandler := fun _ _ => -1 }

/-! ## Raw memory and `memfillFunc` (`toscaUtils.c`) -/

/-- Memory as seen through mapped pointers: the byte at each address. -/
abbrev Mem := Nat → Nat

/-- Byte number `k` of the value `v`, byte 0 being the least significant one. -/
def byteOf (v k : Nat) : Nat := v / 256 ^ k % 256

/-- The store `((uintN_t*)p)[..] = v` of an element of `W` bytes at address `a`,
truncating `v` to `W` bytes; the byte order of the host is a parameter. -/
def storeElem (bigEndian : Bool) (W a v : Nat) (mem : Mem) : Mem :=
  fun x =>
    if a ≤ x ∧ x < a + W then byteOf v (if bigEndian then W - 1 - (x - a) else x - a)
    else mem x

/-- The load `((uintN_t*)p)[..]` of an element of `W` bytes at address `a`. -/
def loadElem (bigEndian : Bool) (W a : Nat) (mem : Mem) : Nat :=
  ((List.range W).map
    (fun k => mem (a + (if bigEndian then W - 1 - k else k)) * 256 ^ k)).sum

/-- How a shell command of `toscaUtils.c` ends: it ran to its end, it could not
map an address, or it reported `Illegal width`. -/
inductive UtilsOutcome where
  | done
  | cannotMap
  | illegalWidth
  deriving DecidableEq, Repr

/-- `pattern += increment` on the `uint32_t` pattern with the `int` increment. -/
def nextPattern (pattern : Nat) (increment : Int) : Nat :=
  (((pattern : Int) + increment) % 2 ^ 32).toNat

/-- The loops `for (i = 0; i < size; i++) { ((uintN_t*)address)[i] = pattern;
pattern += increment; }` of `memfillFunc` for elements of `W` bytes, with `n`
iterations still to run from index `i`. -/
def fillLoop (bigEndian : Bool) (W address : Nat) (increment : Int) :
    Nat → Nat → Nat → Mem → Mem
  | 0, _, _, mem => mem
  | n + 1, i, pattern, mem =>
    fillLoop bigEndian W address increment n (i + 1) (nextPattern pattern increment)
      (storeElem bigEndian W (address + W * i) pattern mem)

/-- `memfillFunc` after the parsing of its arguments: `address` is the pointer
obtained for the target (`0` when it could not be mapped), `patternArg`, `width`
and `increment` are the `int` arguments, `size` the parsed size. Faults of the
accesses (the `SIGSEGV` handler) are not modelled. -/
def memfillFunc (bigEndian : Bool) (address : Nat) (patternArg : Int) (size : Nat)
    (width increment : Int) (mem : Mem) : UtilsOutcome × Mem :=
  let pattern := (patternArg % 2 ^ 32).toNat
  if address = 0 then
    (UtilsOutcome.cannotMap, mem)
  else if width = 0 ∨ width = 1 then
    (UtilsOutcome.done, fillLoop bigEndian 1 address increment size 0 pattern mem)
  else if width = 2 then
    (UtilsOutcome.done, fillLoop bigEndian 2 address increment (size >>> 1) 0 pattern mem)
  else if width = 4 then
    (UtilsOutcome.done, fillLoop bigEndian 4 address increment (size >>> 2) 0 pattern mem)
  else
    (UtilsOutcome.illegalWidth, mem)

/-! ## `memcopyFunc` and `memcompFunc` (`toscaUtils.c`) -/

/-- `bswap_16`, `bswap_32`, `bswap_64` for `W = 2, 4, 8`: byte `k` of the result is
byte `W - 1 - k` of the argument. -/
def bswap (W v : Nat) : Nat :=
  ((List.range W).map (fun k => byteOf v (W - 1 - k) * 256 ^ k)).sum

/-- The loops `for (i = 0; i < size/W; i++) ((uintN_t*)destptr)[i] =
((uintN_t*)sourceptr)[i];` of `memcopyFunc`, with `bswap_N(...)` around the load
when `swap` is set, for elements of `W` bytes and `n` iterations still to run
from index `i`. -/
def copyLoop (bigEndian : Bool) (W : Nat) (swap : Bool) (sourceptr destptr : Nat) :
    Nat → Nat → Mem → Mem
  | 0, _, mem => mem
  | n + 1, i, mem =>
    let v := loadElem bigEndian W (sourceptr + W * i) mem
    copyLoop bigEndian W swap sourceptr destptr n (i + 1)
      (storeElem bigEndian W (destptr + W * i) (if swap then bswap W v else v) mem)

/-- `memcpy(destptr, sourceptr, size)` for regions that do not overlap. -/
def memcpy (destptr sourceptr size : Nat) (mem : Mem) : Mem :=
  fun x => if destptr ≤ x ∧ x < destptr + size then mem (sourceptr + (x - destptr)) else mem x

/-- `memcopyFunc` after the parsing of its arguments: `sourceptr` and `destptr`
are the pointers obtained for source and destination (`0` when the address could
not be mapped). Faults of the accesses and the timing output are not
modelled. -/
def memcopyFunc (bigEndian : Bool) (sourceptr destptr size : Nat) (width : Int) (mem : Mem) :
    UtilsOutcome × Mem :=
  if sourceptr = 0 then
    (UtilsOutcome.cannotMap, mem)
  else if destptr = 0 then
    (UtilsOutcome.cannotMap, mem)
  else if width = 0 then
    (UtilsOutcome.done, memcpy destptr sourceptr size mem)
  else if width = 1 ∨ width = -1 then
    (UtilsOutcome.done, copyLoop bigEndian 1 false sourceptr destptr size 0 mem)
  else if width = 2 then
    (UtilsOutcome.done, copyLoop bigEndian 2 false sourceptr destptr (size / 2) 0 mem)
  else if width = 4 then
    (UtilsOutcome.done, copyLoop bigEndian 4 false sourceptr destptr (size / 4) 0 mem)
  else if width = 8 then
    (UtilsOutcome.done, copyLoop bigEndian 8 false sourceptr destptr (size / 8) 0 mem)
  else if width = -2 then
    (UtilsOutcome.done, copyLoop bigEndian 2 true sourceptr destptr (size / 2) 0 mem)
  else if width = -4 then
    (UtilsOutcome.done, copyLoop bigEndian 4 true sourceptr destptr (size / 4) 0 mem)
  else if width = -8 then
    (UtilsOutcome.done, copyLoop bigEndian 8 true sourceptr destptr (size / 8) 0 mem)
  else
    (UtilsOutcome.illegalWidth, mem)

/-- What `memcompFunc` reports: `OK`, `Mismatch at offset`, that an address could
not be mapped, or `Illegal width`. -/
inductive CompOutcome where
  | ok
  | mismatch (offset : Nat)
  | cannotMap
  | illegalWidth
  deriving DecidableEq, Repr

/-- The loops `for (i = 0; i < size; i += W) if (((uintN_t*)destptr)[i/W] !=
((uintN_t*)sourceptr)[i/W]) break;` of `memcompFunc`, with `bswap_N(...)` around
the source load when `swap` is set: the value of `i` after the loop, started at
`i`. The first argument bounds the number of iterations; `i` grows by `W ≥ 1`
in each of them, so `size` iterations are enough from `i = 0`. -/
def compLoop (bigEndian : Bool) (W : Nat) (swap : Bool) (sourceptr destptr size : Nat)
    (mem : Mem) : Nat → Nat → Nat
  | 0, i => i
  | fuel + 1, i =>
    if i < size then
      let d := loadElem bigEndian W (destptr + W * (i / W)) mem
      let s := loadElem bigEndian W (sourceptr + W * (i / W)) mem
      if d ≠ (if swap then bswap W s else s) then
        i
      else
        compLoop bigEndian W swap sourceptr destptr size mem fuel (i + W)
    else
      i

/-- Lines 350 to 353 of `memcompFunc`: the report for the final value of `i`. -/
def compReport (size i : Nat) : CompOutcome :=
  if i < size then CompOutcome.mismatch i else CompOutcome.ok

/-- `memcompFunc` after the parsing of its arguments, see `memcopyFunc`. -/
def memcompFunc (bigEndian : Bool) (sourceptr destptr size : Nat) (width : Int) (mem : Mem) :
    CompOutcome :=
  if sourceptr = 0 then
    CompOutcome.cannotMap
  else if destptr = 0 then
    CompOutcome.cannotMap
  else if width = 0 ∨ width = 1 ∨ width = -1 then
    compReport size (compLoop bigEndian 1 false sourceptr destptr size mem size 0)
  else if width = 2 then
    compReport size (compLoop bigEndian 2 false sourceptr destptr size mem size 0)
  else if width = 4 then
    compReport size (compLoop bigEndian 4 false sourceptr destptr size mem size 0)
  else if width = 8 then
    compReport size (compLoop bigEndian 8 false sourceptr destptr size mem size 0)
  else if width = -2 then
    compReport size (compLoop bigEndian 2 true sourceptr destptr size mem size 0)
  else if width = -4 then
    compReport size (compLoop bigEndian 4 true sourceptr destptr size mem size 0)
  else if width = -8 then
    compReport size (compLoop bigEndian 8 true sourceptr destptr size mem size 0)
  else
    CompOutcome.illegalWidth

/-- A memory whose bytes are `x mod 256` at address `x`, except for the byte `9`
at address `0x203`. -/
def rampMem : Mem := fun x => if x = 0x203 then 9 else x % 256

/-! ## `toscaElbFd` (`toscaElb.c`) -/

/-- `toscaElbAddrToRegname(address)` -/
def toscaElbAddrToRegname (address : Nat) : String :=
  match address with
  | 0x00 => "vendor"
  | 0x04 => "static_options"
  | 0x08 => "vmectl"
  | 0x0c => "mezzanine"
  | 0x10 => "general"
  | 0x14 => "pciectl"
  | 0x18 => "user"
  | 0x1c => "signature"
  | 0x20 => "cfgctl"
  | 0x24 => "cfgdata"
  | 0x40 => "bmrctl"
  | _ => "unknown"

/-- How `toscaElbFd` ends: with `errno = EINVAL` and the result `-1`; with the
descriptor `fd[reg]` and the new contents of the cache `fd`; or with an access
`fd[reg]` outside the array `fd[11]`. -/
inductive ElbFd where
  | einval
  | descriptor (reg : Nat) (value : Int) (fd : List Int)
  | outOfBounds (reg : Nat)
  deriving DecidableEq, Repr

/-- `toscaElbFd(address)` for a 32-bit `unsigned int address`; `fd` is the content
of the static array `fd[11]`, `sysfsOpen` the result of opening a file name. -/
def toscaElbFd (sysfsOpen : String → Int) (address : Nat) (fd : List Int) : ElbFd :=
  let address := address &&& 0xfffffffc
  if address ≥ 0x28 ∧ address ≠ 0x40 then
    ElbFd.einval
  else
    let reg := if address = 40 then 10 else address >>> 2
    if reg < 11 then
      if fd.getD reg 0 = 0 then
        let opened := sysfsOpen ("/sys/devices/*localbus/*.pon/" ++ toscaElbAddrToRegname address)
        ElbFd.descriptor reg opened (fd.set reg opened)
      else
        ElbFd.descriptor reg (fd.getD reg 0) fd
    else
      ElbFd.outOfBounds reg

/-! ## Arithmetic helpers -/

theorem add_mod_lt_of_wrap {a s M : Nat} (ha : a < M) (hs : s < M) (hov : M ≤ a + s) :
    (a + s) % M < a := by
  rw [Nat.mod_eq_sub_mod hov, Nat.mod_eq_of_lt (by omega)]
  omega

theorem mask_c00000 (b : Nat) : b &&& 0xc00000 = (b / 2 ^ 22 % 4) * 2 ^ 22 := by
  apply Nat.eq_of_testBit_eq
  intro i
  have h1 : (0xc00000 : Nat) = 2 ^ 22 * (2 ^ 2 - 1) := by norm_num
  rw [Nat.testBit_and, h1, Nat.mul_comm (b / 2 ^ 22 % 4), Nat.testBit_mul_pow_two,
    Nat.testBit_mul_pow_two, Nat.testBit_two_pow_sub_one]
  have h2 : (4 : Nat) = 2 ^ 2 := by norm_num
  rw [h2, Nat.testBit_mod_two_pow, ← Nat.shiftRight_eq_div_pow, Nat.testBit_shiftRight]
  by_cases hi : 22 ≤ i
  · have : 22 + (i - 22) = i := by omega
    simp [hi, this]
    by_cases h3 : i - 22 < 2 <;> simp [h3]
  · simp [hi]

theorem mask_3fffff (b : Nat) : b &&& 0x3fffff = b % 2 ^ 22 := by
  have := Nat.and_pow_two_sub_one_eq_mod b 22
  simpa using this

/-- Below 16 MiB an address is its chunk base plus its offset in the chunk. -/
theorem chunk_split (b : Nat) (hb : b < 0x1000000) :
    b - (b &&& 0xc00000) = b &&& 0x3fffff ∧ (b &&& 0xc00000) ≤ b := by
  rw [mask_c00000, mask_3fffff]
  omega

/-! ## Unfolding `toscaDevLibMapAddr` per address space -/

theorem mapFinish_calls (c : MapCall) (p : Nat) : (mapFinish c p).calls = [c] := by
  unfold mapFinish
  split <;> rfl

theorem mapFinish_status (c : MapCall) (p : Nat) :
    (mapFinish c p).status = if p = 0 then S_dev_addrMapFail else S_dev_success := by
  unfold mapFinish
  split <;> rfl

theorem mapFinish_stored (c : MapCall) (p : Nat) :
    (mapFinish c p).stored = if p = 0 then none else some p := by
  unfold mapFinish
  split <;> rfl

theorem mapAddr_A16 (h : VmeHeader) (w : Nat) (toscaMap : Allocator)
    (options vmeAddress size : Nat) (hnw : vmeAddress + size < 2 ^ w) :
    toscaDevLibMapAddr h w toscaMap atVMEA16 options vmeAddress size =
      if 0x10000 < vmeAddress + size then ⟨S_dev_badA16, [], none⟩
      else mapFinish ⟨h.VME_A16 ||| h.VME_SUPER, 0, 0x10000⟩
        (if toscaMap ⟨h.VME_A16 ||| h.VME_SUPER, 0, 0x10000⟩ ≠ 0
          then toscaMap ⟨h.VME_A16 ||| h.VME_SUPER, 0, 0x10000⟩ + vmeAddress
          else toscaMap ⟨h.VME_A16 ||| h.VME_SUPER, 0, 0x10000⟩) := by
  simp [toscaDevLibMapAddr, Nat.mod_eq_of_lt hnw, atVMEA16, atLast, VME_A16_MAX,
    VME_DEFAULT_MODE]

theorem mapAddr_A24 (h : VmeHeader) (w : Nat) (toscaMap : Allocator)
    (options vmeAddress size : Nat) (hnw : vmeAddress + size < 2 ^ w) :
    toscaDevLibMapAddr h w toscaMap atVMEA24 options vmeAddress size =
      if 0x1000000 < vmeAddress + size then ⟨S_dev_badA24, [], none⟩
      else if (vmeAddress ^^^ (vmeAddress + size)) &&& 0xc00000 = 0 then
        mapFinish ⟨h.VME_A24 ||| h.VME_SUPER, vmeAddress &&& 0xc00000, 0x400000⟩
          (if toscaMap ⟨h.VME_A24 ||| h.VME_SUPER, vmeAddress &&& 0xc00000, 0x400000⟩ ≠ 0
            then toscaMap ⟨h.VME_A24 ||| h.VME_SUPER, vmeAddress &&& 0xc00000, 0x400000⟩
              + (vmeAddress &&& 0x3fffff)
            else toscaMap ⟨h.VME_A24 ||| h.VME_SUPER, vmeAddress &&& 0xc00000, 0x400000⟩)
      else mapFinish ⟨h.VME_A24 ||| h.VME_SUPER, vmeAddress, size⟩
          (toscaMap ⟨h.VME_A24 ||| h.VME_SUPER, vmeAddress, size⟩) := by
  simp [toscaDevLibMapAddr, Nat.mod_eq_of_lt hnw, atVMEA16, atVMEA24, atLast, VME_A24_MAX,
    VME_DEFAULT_MODE]

theorem mapAddr_A32 (h : VmeHeader) (w : Nat) (toscaMap : Allocator)
    (options vmeAddress size : Nat) (hnw : vmeAddress + size < 2 ^ w) :
    toscaDevLibMapAddr h w toscaMap atVMEA32 options vmeAddress size =
      if 0x100000000 < vmeAddress + size then ⟨S_dev_badA32, [], none⟩
      else mapFinish ⟨h.VME_A32 ||| h.VME_SUPER, vmeAddress, size⟩
          (toscaMap ⟨h.VME_A32 ||| h.VME_SUPER, vmeAddress, size⟩) := by
  simp [toscaDevLibMapAddr, Nat.mod_eq_of_lt hnw, atVMEA16, atVMEA24, atVMEA32, atLast,
    VME_A32_MAX, VME_DEFAULT_MODE]

theorem mapAddr_CSR (h : VmeHeader) (w : Nat) (toscaMap : Allocator)
    (options vmeAddress size : Nat) (hnw : vmeAddress + size < 2 ^ w) :
    toscaDevLibMapAddr h w toscaMap atVMECSR options vmeAddress size =
      if h.VME_CRCSR_MAX < vmeAddress + size then ⟨S_dev_badCRCSR, [], none⟩
      else mapFinish ⟨h.VME_CRCSR, vmeAddress, size⟩
          (toscaMap ⟨h.VME_CRCSR, vmeAddress, size⟩) := by
  simp [toscaDevLibMapAddr, Nat.mod_eq_of_lt hnw, atVMEA16, atVMEA24, atVMEA32, atVMECSR,
    atLast]

/-! ## Shape of the result of `toscaDevLibMapAddr` -/

theorem mapFinish_status_ne (c : MapCall) (p : Nat) (s : DevStatus)
    (h1 : s ≠ S_dev_addrMapFail) (h2 : s ≠ S_dev_success) : (mapFinish c p).status ≠ s := by
  rw [mapFinish_status]
  split
  · exact fun e => h1 e.symm
  · exact fun e => h2 e.symm

/-- The pointer handed to `mapFinish` is what a successful call stores. -/
theorem mapFinish_success (c : MapCall) (p : Nat)
    (hok : (mapFinish c p).status = S_dev_success) :
    p ≠ 0 ∧ (mapFinish c p).stored = some p := by
  rw [mapFinish_status] at hok
  by_cases hp : p = 0
  · rw [if_pos hp] at hok
    exact absurd hok (by decide)
  · exact ⟨hp, by rw [mapFinish_stored, if_neg hp]⟩

theorem mapAddr_wrap (h : VmeHeader) (w : Nat) (toscaMap : Allocator)
    (addrType options vmeAddress size : Nat)
    (hb : vmeAddress < 2 ^ w) (hs : size < 2 ^ w) (hov : 2 ^ w ≤ vmeAddress + size) :
    toscaDevLibMapAddr h w toscaMap addrType options vmeAddress size
      = ⟨S_dev_badArgument, [], none⟩ := by
  have hlt := add_mod_lt_of_wrap hb hs hov
  unfold toscaDevLibMapAddr
  simp only [hlt, if_true]
  split <;> rfl

theorem mapAddr_other (h : VmeHeader) (w : Nat) (toscaMap : Allocator)
    (addrType options vmeAddress size : Nat) (hnw : vmeAddress + size < 2 ^ w)
    (h16 : addrType ≠ atVMEA16) (h24 : addrType ≠ atVMEA24) (h32 : addrType ≠ atVMEA32)
    (hcsr : addrType ≠ atVMECSR) :
    toscaDevLibMapAddr h w toscaMap addrType options vmeAddress size =
      if atLast ≤ addrType then ⟨S_dev_badArgument, [], none⟩
      else ⟨S_dev_uknAddrType, [], none⟩ := by
  simp [toscaDevLibMapAddr, Nat.mod_eq_of_lt hnw, h16, h24, h32, hcsr]

/-- An in-range request makes one allocator call and finishes with the returned
pointer, moved by an offset when it is not `NULL`. -/
theorem mapAddr_inRange_shape (h : VmeHeader) (w : Nat) (toscaMap : Allocator)
    (addrType options vmeAddress size : Nat) (hnw : vmeAddress + size < 2 ^ w)
    (hin : inRange h addrType (vmeAddress + size)) :
    ∃ (c : MapCall) (off : Nat),
      toscaDevLibMapAddr h w toscaMap addrType options vmeAddress size =
        mapFinish c (if toscaMap c ≠ 0 then toscaMap c + off else toscaMap c) := by
  rcases hin with ⟨hk, hx⟩ | ⟨hk, hx⟩ | ⟨hk, hx⟩ | ⟨hk, hx⟩
  · subst hk
    rw [mapAddr_A16 h w toscaMap options vmeAddress size hnw, if_neg (by omega)]
    exact ⟨_, vmeAddress, rfl⟩
  · subst hk
    rw [mapAddr_A24 h w toscaMap options vmeAddress size hnw, if_neg (by omega)]
    split
    · exact ⟨_, vmeAddress &&& 0x3fffff, rfl⟩
    · exact ⟨⟨h.VME_A24 ||| h.VME_SUPER, vmeAddress, size⟩, 0, by simp⟩
  · subst hk
    rw [mapAddr_A32 h w toscaMap options vmeAddress size hnw, if_neg (by omega)]
    exact ⟨⟨h.VME_A32 ||| h.VME_SUPER, vmeAddress, size⟩, 0, by simp⟩
  · subst hk
    rw [mapAddr_CSR h w toscaMap options vmeAddress size hnw, if_neg (by omega)]
    exact ⟨⟨h.VME_CRCSR, vmeAddress, size⟩, 0, by simp⟩

/-- A successful call was made without wrap, for one of the four VME spaces and
within the extent of that space. -/
theorem mapAddr_success_inv (h : VmeHeader) (w : Nat) (toscaMap : Allocator)
    (addrType options vmeAddress size : Nat)
    (hb : vmeAddress < 2 ^ w) (hs : size < 2 ^ w)
    (hok : (toscaDevLibMapAddr h w toscaMap addrType options vmeAddress size).status
      = S_dev_success) :
    vmeAddress + size < 2 ^ w ∧ inRange h addrType (vmeAddress + size) := by
  have hnw : vmeAddress + size < 2 ^ w := by
    by_contra hc
    rw [mapAddr_wrap h w toscaMap addrType options vmeAddress size hb hs (by omega)] at hok
    exact absurd hok (by decide)
  refine ⟨hnw, ?_⟩
  by_cases h16 : addrType = atVMEA16
  · subst h16
    rw [mapAddr_A16 h w toscaMap options vmeAddress size hnw] at hok
    split at hok
    · exact absurd hok (by decide)
    · exact Or.inl ⟨rfl, by omega⟩
  by_cases h24 : addrType = atVMEA24
  · subst h24
    rw [mapAddr_A24 h w toscaMap options vmeAddress size hnw] at hok
    split at hok
    · exact absurd hok (by decide)
    · exact Or.inr (Or.inl ⟨rfl, by omega⟩)
  by_cases h32 : addrType = atVMEA32
  · subst h32
    rw [mapAddr_A32 h w toscaMap options vmeAddress size hnw] at hok
    split at hok
    · exact absurd hok (by decide)
    · exact Or.inr (Or.inr (Or.inl ⟨rfl, by omega⟩))
  by_cases hcsr : addrType = atVMECSR
  · subst hcsr
    rw [mapAddr_CSR h w toscaMap options vmeAddress size hnw] at hok
    split at hok
    · exact absurd hok (by decide)
    · exact Or.inr (Or.inr (Or.inr ⟨rfl, by omega⟩))
  rw [mapAddr_other h w toscaMap addrType options vmeAddress size hnw h16 h24 h32 hcsr] at hok
  split at hok <;> exact absurd hok (by decide)

/-! ## Properties of `toscaDevLibMapAddr` -/

/-- C1: when `vmeAddress + size` does not fit the `w`-bit `size_t`, the mapper
returns `S_dev_badArgument` for every address type, calls `toscaMap` not at all
and stores nothing into `*ppPhysicalAddress`. -/
theorem mapAddr_overflow_badArgument (h : VmeHeader) (w : Nat) (toscaMap : Allocator)
    (addrType options vmeAddress size : Nat)
    (hb : vmeAddress < 2 ^ w) (hs : size < 2 ^ w) (hov : 2 ^ w ≤ vmeAddress + size) :
    (toscaDevLibMapAddr h w toscaMap addrType options vmeAddress size).status = S_dev_badArgument ∧
    (toscaDevLibMapAddr h w toscaMap addrType options vmeAddress size).calls = [] ∧
    (toscaDevLibMapAddr h w toscaMap addrType options vmeAddress size).stored = none := by
  rw [mapAddr_wrap h w toscaMap addrType options vmeAddress size hb hs hov]
  exact ⟨rfl, rfl, rfl⟩

theorem mapAddr_overflow_badArgument_witness :
    (0xfffffffc < 2 ^ 32 ∧ 8 < 2 ^ 32 ∧ 2 ^ 32 ≤ 0xfffffffc + 8) ∧
    (toscaDevLibMapAddr linuxVme 32 (fun _ => 0x7f000000) atVMEA32 0 0xfffffffc 8).status
        = S_dev_badArgument ∧
    (toscaDevLibMapAddr linuxVme 32 (fun _ => 0x7f000000) atVMEA32 0 0xfffffffc 8).calls = [] ∧
    (toscaDevLibMapAddr linuxVme 32 (fun _ => 0x7f000000) atVMEA32 0 0xfffffffc 8).stored
        = none :=
  ⟨by norm_num,
    mapAddr_overflow_badArgument linuxVme 32 (fun _ => 0x7f000000) atVMEA32 0 0xfffffffc 8
      (by norm_num) (by norm_num) (by norm_num)⟩

/-- C2 (evaluation at the failing input): the A24 request `0x100 .. 0x3fffff`
has at least one byte, ends below 16 MiB and lies in the first 4 MiB chunk, yet
the allocator is called with the requested range `(0x100, 0x3fff00)` and not
with the chunk `(0, 0x400000)`. -/
theorem mapAddr_A24_chunk_end_not_chunked :
    1 ≤ 0x3fff00 ∧ 0x100 + 0x3fff00 ≤ 0x1000000 ∧
    0x100 / 2 ^ 22 = (0x100 + 0x3fff00 - 1) / 2 ^ 22 ∧
    ∀ (h : VmeHeader) (toscaMap : Allocator),
      (toscaDevLibMapAddr h 64 toscaMap atVMEA24 0 0x100 0x3fff00).calls
        = [⟨h.VME_A24 ||| h.VME_SUPER, 0x100, 0x3fff00⟩] ∧
      (toscaDevLibMapAddr h 64 toscaMap atVMEA24 0 0x100 0x3fff00).calls
        ≠ [⟨h.VME_A24 ||| h.VME_SUPER, 0x100 &&& 0xc00000, 0x400000⟩] := by
  refine ⟨by norm_num, by norm_num, by norm_num, ?_⟩
  intro h toscaMap
  rw [mapAddr_A24 h 64 toscaMap 0 0x100 0x3fff00 (by norm_num)]
  have h1 : ¬ ((0x1000000 : Nat) < 0x100 + 0x3fff00) := by norm_num
  have h2 : ¬ (((0x100 : Nat) ^^^ (0x100 + 0x3fff00)) &&& 0xc00000 = 0) := by decide
  rw [if_neg h1, if_neg h2, mapFinish_calls]
  simp

/-- C3 (evaluation at the failing input): the A24 request for the whole space,
base `0` and size 16 MiB, is accepted and spans all four 4 MiB chunks, yet the
allocator is called with the first chunk `(0, 0x400000)` and not with the
requested `(0, 0x1000000)`. -/
theorem mapAddr_A24_whole_space_chunked :
    0 + 0x1000000 ≤ 0x1000000 ∧
    0 / 2 ^ 22 ≠ (0 + 0x1000000 - 1) / 2 ^ 22 ∧
    ∀ (h : VmeHeader) (toscaMap : Allocator),
      (toscaDevLibMapAddr h 64 toscaMap atVMEA24 0 0 0x1000000).calls
        = [⟨h.VME_A24 ||| h.VME_SUPER, 0, 0x400000⟩] ∧
      (toscaDevLibMapAddr h 64 toscaMap atVMEA24 0 0 0x1000000).calls
        ≠ [⟨h.VME_A24 ||| h.VME_SUPER, 0, 0x1000000⟩] := by
  refine ⟨by norm_num, by norm_num, ?_⟩
  intro h toscaMap
  rw [mapAddr_A24 h 64 toscaMap 0 0 0x1000000 (by norm_num)]
  have h1 : ¬ ((0x1000000 : Nat) < 0 + 0x1000000) := by norm_num
  have h2 : (((0 : Nat) ^^^ (0 + 0x1000000)) &&& 0xc00000 = 0) := by decide
  have h3 : (0 : Nat) &&& 0xc00000 = 0 := by decide
  rw [if_neg h1, if_pos h2, mapFinish_calls, h3]
  simp

/-- C4: for a request whose `vmeAddress + size` does not wrap, the status is the
out-of-range code of the requested space (`S_dev_badA16`, `S_dev_badA24`,
`S_dev_badA32`, `S_dev_badCRCSR`) exactly when `vmeAddress + size` is greater than
the extent of that space (64 KiB, 16 MiB, 4 GiB, `VME_CRCSR_MAX`), so a request
ending exactly at the extent is not rejected; a rejected request makes no
allocator call; the four codes are pairwise distinct. -/
theorem mapAddr_outOfRange_iff (h : VmeHeader) (w : Nat) (toscaMap : Allocator)
    (options vmeAddress size : Nat) (hnw : vmeAddress + size < 2 ^ w) :
    ((toscaDevLibMapAddr h w toscaMap atVMEA16 options vmeAddress size).status = S_dev_badA16
      ↔ 0x10000 < vmeAddress + size) ∧
    ((toscaDevLibMapAddr h w toscaMap atVMEA24 options vmeAddress size).status = S_dev_badA24
      ↔ 0x1000000 < vmeAddress + size) ∧
    ((toscaDevLibMapAddr h w toscaMap atVMEA32 options vmeAddress size).status = S_dev_badA32
      ↔ 0x100000000 < vmeAddress + size) ∧
    ((toscaDevLibMapAddr h w toscaMap atVMECSR options vmeAddress size).status = S_dev_badCRCSR
      ↔ h.VME_CRCSR_MAX < vmeAddress + size) ∧
    (0x10000 < vmeAddress + size →
      (toscaDevLibMapAddr h w toscaMap atVMEA16 options vmeAddress size).calls = []) ∧
    (0x1000000 < vmeAddress + size →
      (toscaDevLibMapAddr h w toscaMap atVMEA24 options vmeAddress size).calls = []) ∧
    (0x100000000 < vmeAddress + size →
      (toscaDevLibMapAddr h w toscaMap atVMEA32 options vmeAddress size).calls = []) ∧
    (h.VME_CRCSR_MAX < vmeAddress + size →
      (toscaDevLibMapAddr h w toscaMap atVMECSR options vmeAddress size).calls = []) ∧
    [S_dev_badA16, S_dev_badA24, S_dev_badA32, S_dev_badCRCSR].Nodup := by
  rw [mapAddr_A16 h w toscaMap options vmeAddress size hnw,
    mapAddr_A24 h w toscaMap options vmeAddress size hnw,
    mapAddr_A32 h w toscaMap options vmeAddress size hnw,
    mapAddr_CSR h w toscaMap options vmeAddress size hnw]
  refine ⟨?_, ?_, ?_, ?_, ?_, ?_, ?_, ?_, by decide⟩
  · by_cases hx : 0x10000 < vmeAddress + size
    · simp [hx]
    · simp only [hx, if_false, iff_false]
      exact mapFinish_status_ne _ _ _ (by decide) (by decide)
  · by_cases hx : 0x1000000 < vmeAddress + size
    · simp [hx]
    · simp only [hx, if_false, iff_false]
      split <;> exact mapFinish_status_ne _ _ _ (by decide) (by decide)
  · by_cases hx : 0x100000000 < vmeAddress + size
    · simp [hx]
    · simp only [hx, if_false, iff_false]
      exact mapFinish_status_ne _ _ _ (by decide) (by decide)
  · by_cases hx : h.VME_CRCSR_MAX < vmeAddress + size
    · simp [hx]
    · simp only [hx, if_false, iff_false]
      exact mapFinish_status_ne _ _ _ (by decide) (by decide)
  · intro hx; simp [hx]
  · intro hx; simp [hx]
  · intro hx; simp [hx]
  · intro hx; simp [hx]

theorem mapAddr_outOfRange_iff_witness :
    0xff00 + 0x101 < 2 ^ 64 ∧
    ((toscaDevLibMapAddr linuxVme 64 (fun _ => 0x7f000000) atVMEA16 0 0xff00 0x101).status
      = S_dev_badA16 ↔ 0x10000 < 0xff00 + 0x101) ∧
    ((toscaDevLibMapAddr linuxVme 64 (fun _ => 0x7f000000) atVMEA24 0 0xff00 0x101).status
      = S_dev_badA24 ↔ 0x1000000 < 0xff00 + 0x101) :=
  have hx := mapAddr_outOfRange_iff linuxVme 64 (fun _ => 0x7f000000) 0 0xff00 0x101
    (by norm_num)
  ⟨by norm_num, hx.1, hx.2.1⟩

/-- C5 (counterexample): `atISA` is none of A16, A24, A32, CRCSR, and a request
for it returns `S_dev_uknAddrType`, which is not `S_dev_badArgument`. -/
theorem mapAddr_atISA_not_badArgument :
    atISA ≠ atVMEA16 ∧ atISA ≠ atVMEA24 ∧ atISA ≠ atVMEA32 ∧ atISA ≠ atVMECSR ∧
    (toscaDevLibMapAddr linuxVme 64 (fun _ => 0x7f000000) atISA 0 0x1000 0x100).status
      = S_dev_uknAddrType ∧
    (toscaDevLibMapAddr linuxVme 64 (fun _ => 0x7f000000) atISA 0 0x1000 0x100).status
      ≠ S_dev_badArgument := by
  decide

/-- C5 (amended): a request whose address type is none of A16, A24, A32, CRCSR
never calls the allocator and never stores into `*ppPhysicalAddress`; its status
is `S_dev_badArgument` when the type is `atLast` or greater or when
`vmeAddress + size` wraps, and `S_dev_uknAddrType` when the type is below `atLast`
(that is, `atISA`) and `vmeAddress + size` does not wrap. -/
theorem mapAddr_unknown_space (h : VmeHeader) (w : Nat) (toscaMap : Allocator)
    (addrType options vmeAddress size : Nat)
    (hb : vmeAddress < 2 ^ w) (hs : size < 2 ^ w)
    (h16 : addrType ≠ atVMEA16) (h24 : addrType ≠ atVMEA24) (h32 : addrType ≠ atVMEA32)
    (hcsr : addrType ≠ atVMECSR) :
    (toscaDevLibMapAddr h w toscaMap addrType options vmeAddress size).calls = [] ∧
    (toscaDevLibMapAddr h w toscaMap addrType options vmeAddress size).stored = none ∧
    (atLast ≤ addrType ∨ 2 ^ w ≤ vmeAddress + size →
      (toscaDevLibMapAddr h w toscaMap addrType options vmeAddress size).status
        = S_dev_badArgument) ∧
    (addrType < atLast → vmeAddress + size < 2 ^ w →
      addrType = atISA ∧
      (toscaDevLibMapAddr h w toscaMap addrType options vmeAddress size).status
        = S_dev_uknAddrType) := by
  by_cases hov : 2 ^ w ≤ vmeAddress + size
  · rw [mapAddr_wrap h w toscaMap addrType options vmeAddress size hb hs hov]
    exact ⟨rfl, rfl, fun _ => rfl, fun _ hnw => absurd hov (by omega)⟩
  · have hnw : vmeAddress + size < 2 ^ w := by omega
    rw [mapAddr_other h w toscaMap addrType options vmeAddress size hnw h16 h24 h32 hcsr]
    by_cases hl : atLast ≤ addrType
    · rw [if_pos hl]
      exact ⟨rfl, rfl, fun _ => rfl, fun hlt _ => absurd hl (by omega)⟩
    · rw [if_neg hl]
      refine ⟨rfl, rfl, fun hc => ?_, fun _ _ => ⟨?_, rfl⟩⟩
      · rcases hc with hc | hc
        · exact absurd hc hl
        · exact absurd hc hov
      · unfold atLast at hl
        unfold atVMEA16 at h16
        unfold atVMEA24 at h24
        unfold atVMEA32 at h32
        unfold atVMECSR at hcsr
        unfold atISA
        omega

theorem mapAddr_unknown_space_witness :
    (toscaDevLibMapAddr linuxVme 64 (fun _ => 0x7f000000) 7 0 0x1000 0x100).calls = [] ∧
    (toscaDevLibMapAddr linuxVme 64 (fun _ => 0x7f000000) 7 0 0x1000 0x100).stored = none ∧
    (toscaDevLibMapAddr linuxVme 64 (fun _ => 0x7f000000) 7 0 0x1000 0x100).status
      = S_dev_badArgument :=
  have hx := mapAddr_unknown_space linuxVme 64 (fun _ => 0x7f000000) 7 0 0x1000 0x100
    (by norm_num) (by norm_num) (by decide) (by decide) (by decide) (by decide)
  ⟨hx.1, hx.2.1, hx.2.2.1 (Or.inl (by decide))⟩

/-- C6 (evaluation at the failing input): the accepted A24 request with base
16 MiB and size 0 succeeds; since the chunk test looks at `vmeAddress + size`, the
allocator is asked for the chunk at bus address `0` and returns `p = 0x7f000000`,
and the stored pointer is `p`, the host address of bus address `0`, not
`p + (base - 0)`. -/
theorem mapAddr_A24_top_pointer_not_offset :
    (toscaDevLibMapAddr linuxVme 64 (fun _ => 0x7f000000) atVMEA24 0 0x1000000 0).status
      = S_dev_success ∧
    (toscaDevLibMapAddr linuxVme 64 (fun _ => 0x7f000000) atVMEA24 0 0x1000000 0).calls
      = [⟨0x1002, 0, 0x400000⟩] ∧
    (toscaDevLibMapAddr linuxVme 64 (fun _ => 0x7f000000) atVMEA24 0 0x1000000 0).stored
      = some 0x7f000000 ∧
    (toscaDevLibMapAddr linuxVme 64 (fun _ => 0x7f000000) atVMEA24 0 0x1000000 0).stored
      ≠ some (0x7f000000 + (0x1000000 - 0)) := by
  decide

/-- The extent of the defect shown by `mapAddr_A24_top_pointer_not_offset`: on
every other successful call, exactly one allocator call `c` was made, its window
starts at or below `vmeAddress`, it returned a pointer `p` other than `NULL`, and
the pointer stored into `*ppPhysicalAddress` is `p + (vmeAddress - c.address)`. -/
theorem mapAddr_success_pointer (h : VmeHeader) (w : Nat) (toscaMap : Allocator)
    (addrType options vmeAddress size : Nat)
    (hb : vmeAddress < 2 ^ w) (hs : size < 2 ^ w)
    (htop : ¬ (addrType = atVMEA24 ∧ vmeAddress = 0x1000000))
    (hok : (toscaDevLibMapAddr h w toscaMap addrType options vmeAddress size).status
      = S_dev_success) :
    ∃ c : MapCall,
      (toscaDevLibMapAddr h w toscaMap addrType options vmeAddress size).calls = [c] ∧
      c.address ≤ vmeAddress ∧ toscaMap c ≠ 0 ∧
      (toscaDevLibMapAddr h w toscaMap addrType options vmeAddress size).stored
        = some (toscaMap c + (vmeAddress - c.address)) := by
  obtain ⟨hnw, hin⟩ :=
    mapAddr_success_inv h w toscaMap addrType options vmeAddress size hb hs hok
  rcases hin with ⟨hk, hx⟩ | ⟨hk, hx⟩ | ⟨hk, hx⟩ | ⟨hk, hx⟩
  · subst hk
    rw [mapAddr_A16 h w toscaMap options vmeAddress size hnw, if_neg (by omega)] at hok ⊢
    obtain ⟨hp, hst⟩ := mapFinish_success _ _ hok
    refine ⟨_, mapFinish_calls _ _, Nat.zero_le _, ?_, ?_⟩
    · intro h0
      simp [h0] at hp
    · rw [hst]
      split
      · simp
      · rename_i h0
        simp [h0] at hp
  · subst hk
    rw [mapAddr_A24 h w toscaMap options vmeAddress size hnw, if_neg (by omega)] at hok ⊢
    have hlt : vmeAddress < 0x1000000 := by
      have : vmeAddress ≠ 0x1000000 := fun e => htop ⟨rfl, e⟩
      omega
    obtain ⟨hsub, hle⟩ := chunk_split vmeAddress hlt
    split at hok
    · rename_i hch
      rw [if_pos hch]
      obtain ⟨hp, hst⟩ := mapFinish_success _ _ hok
      refine ⟨_, mapFinish_calls _ _, hle, ?_, ?_⟩
      · intro h0
        simp [h0] at hp
      · rw [hst]
        split
        · simp only [hsub]
        · rename_i h0
          simp [h0] at hp
    · rename_i hch
      rw [if_neg hch]
      obtain ⟨hp, hst⟩ := mapFinish_success _ _ hok
      exact ⟨_, mapFinish_calls _ _, Nat.le_refl _, hp, by simpa using hst⟩
  · subst hk
    rw [mapAddr_A32 h w toscaMap options vmeAddress size hnw, if_neg (by omega)] at hok ⊢
    obtain ⟨hp, hst⟩ := mapFinish_success _ _ hok
    exact ⟨_, mapFinish_calls _ _, Nat.le_refl _, hp, by simpa using hst⟩
  · subst hk
    rw [mapAddr_CSR h w toscaMap options vmeAddress size hnw, if_neg (by omega)] at hok ⊢
    obtain ⟨hp, hst⟩ := mapFinish_success _ _ hok
    exact ⟨_, mapFinish_calls _ _, Nat.le_refl _, hp, by simpa using hst⟩

theorem mapAddr_success_pointer_witness :
    (toscaDevLibMapAddr linuxVme 64 (fun _ => 0x7f000000) atVMEA24 0 0x500100 0x100).status
      = S_dev_success ∧
    ∃ c : MapCall,
      (toscaDevLibMapAddr linuxVme 64 (fun _ => 0x7f000000) atVMEA24 0 0x500100 0x100).calls
        = [c] ∧
      c.address ≤ 0x500100 ∧ (fun _ => 0x7f000000 : Allocator) c ≠ 0 ∧
      (toscaDevLibMapAddr linuxVme 64 (fun _ => 0x7f000000) atVMEA24 0 0x500100 0x100).stored
        = some ((fun _ => 0x7f000000 : Allocator) c + (0x500100 - c.address)) :=
  ⟨by decide,
    mapAddr_success_pointer linuxVme 64 (fun _ => 0x7f000000) atVMEA24 0 0x500100 0x100
      (by norm_num) (by norm_num) (by decide) (by decide)⟩

/-- C7: an accepted A16 request makes exactly one allocator call, for the window
with base 0 and size 64 KiB whatever the requested base and size; an accepted
A32 or CRCSR request makes exactly one allocator call, with the requested base
and size. -/
theorem mapAddr_window_policy (h : VmeHeader) (w : Nat) (toscaMap : Allocator)
    (options vmeAddress size : Nat) (hnw : vmeAddress + size < 2 ^ w) :
    (vmeAddress + size ≤ 0x10000 →
      (toscaDevLibMapAddr h w toscaMap atVMEA16 options vmeAddress size).calls
        = [⟨h.VME_A16 ||| h.VME_SUPER, 0, 0x10000⟩]) ∧
    (vmeAddress + size ≤ 0x100000000 →
      (toscaDevLibMapAddr h w toscaMap atVMEA32 options vmeAddress size).calls
        = [⟨h.VME_A32 ||| h.VME_SUPER, vmeAddress, size⟩]) ∧
    (vmeAddress + size ≤ h.VME_CRCSR_MAX →
      (toscaDevLibMapAddr h w toscaMap atVMECSR options vmeAddress size).calls
        = [⟨h.VME_CRCSR, vmeAddress, size⟩]) := by
  refine ⟨fun hx => ?_, fun hx => ?_, fun hx => ?_⟩
  · rw [mapAddr_A16 h w toscaMap options vmeAddress size hnw, if_neg (by omega),
      mapFinish_calls]
  · rw [mapAddr_A32 h w toscaMap options vmeAddress size hnw, if_neg (by omega),
      mapFinish_calls]
  · rw [mapAddr_CSR h w toscaMap options vmeAddress size hnw, if_neg (by omega),
      mapFinish_calls]

theorem mapAddr_window_policy_witness :
    0x2000 + 0x40 < 2 ^ 64 ∧
    (toscaDevLibMapAddr linuxVme 64 (fun _ => 0x7f000000) atVMEA16 0 0x2000 0x40).calls
      = [⟨linuxVme.VME_A16 ||| linuxVme.VME_SUPER, 0, 0x10000⟩] ∧
    (toscaDevLibMapAddr linuxVme 64 (fun _ => 0x7f000000) atVMEA32 0 0x2000 0x40).calls
      = [⟨linuxVme.VME_A32 ||| linuxVme.VME_SUPER, 0x2000, 0x40⟩] ∧
    (toscaDevLibMapAddr linuxVme 64 (fun _ => 0x7f000000) atVMECSR 0 0x2000 0x40).calls
      = [⟨linuxVme.VME_CRCSR, 0x2000, 0x40⟩] :=
  have hx := mapAddr_window_policy linuxVme 64 (fun _ => 0x7f000000) 0 0x2000 0x40
    (by norm_num)
  ⟨by norm_num, hx.1 (by norm_num), hx.2.1 (by norm_num), hx.2.2 (by decide)⟩

/-- C8: a request for one of the four VME spaces that does not wrap and lies
within the extent of its space makes exactly one allocator call, and when that
call returns `NULL` the status is `S_dev_addrMapFail` and nothing is stored into
`*ppPhysicalAddress`; and whenever the status of a request is `S_dev_success`,
the allocator was called once and returned a pointer other than `NULL`. -/
theorem mapAddr_allocator_failure (h : VmeHeader) (w : Nat) (toscaMap : Allocator)
    (addrType options vmeAddress size : Nat)
    (hb : vmeAddress < 2 ^ w) (hs : size < 2 ^ w) :
    (vmeAddress + size < 2 ^ w → inRange h addrType (vmeAddress + size) →
      ∃ c : MapCall,
        (toscaDevLibMapAddr h w toscaMap addrType options vmeAddress size).calls = [c] ∧
        (toscaMap c = 0 →
          (toscaDevLibMapAddr h w toscaMap addrType options vmeAddress size).status
            = S_dev_addrMapFail ∧
          (toscaDevLibMapAddr h w toscaMap addrType options vmeAddress size).stored = none)) ∧
    ((toscaDevLibMapAddr h w toscaMap addrType options vmeAddress size).status = S_dev_success →
      ∃ c : MapCall,
        (toscaDevLibMapAddr h w toscaMap addrType options vmeAddress size).calls = [c] ∧
        toscaMap c ≠ 0) := by
  constructor
  · intro hnw hin
    obtain ⟨c, off, hr⟩ :=
      mapAddr_inRange_shape h w toscaMap addrType options vmeAddress size hnw hin
    refine ⟨c, by rw [hr, mapFinish_calls], fun h0 => ?_⟩
    rw [hr, mapFinish_status, mapFinish_stored]
    simp [h0]
  · intro hok
    obtain ⟨hnw, hin⟩ :=
      mapAddr_success_inv h w toscaMap addrType options vmeAddress size hb hs hok
    obtain ⟨c, off, hr⟩ :=
      mapAddr_inRange_shape h w toscaMap addrType options vmeAddress size hnw hin
    refine ⟨c, by rw [hr, mapFinish_calls], fun h0 => ?_⟩
    rw [hr, mapFinish_status] at hok
    simp [h0] at hok

theorem mapAddr_allocator_failure_witness :
    (0x2000 < 2 ^ 64 ∧ 0x40 < 2 ^ 64) ∧
    ∃ c : MapCall,
      (toscaDevLibMapAddr linuxVme 64 (fun _ => 0) atVMEA32 0 0x2000 0x40).calls = [c] ∧
      ((fun _ => 0 : Allocator) c = 0 →
        (toscaDevLibMapAddr linuxVme 64 (fun _ => 0) atVMEA32 0 0x2000 0x40).status
          = S_dev_addrMapFail ∧
        (toscaDevLibMapAddr linuxVme 64 (fun _ => 0) atVMEA32 0 0x2000 0x40).stored = none) :=
  ⟨by norm_num,
    (mapAddr_allocator_failure linuxVme 64 (fun _ => 0) atVMEA32 0 0x2000 0x40
      (by norm_num) (by norm_num)).1 (by norm_num) (by decide)⟩

/-! ## Unfolding `toscaDevLibProbe` -/

theorem xor_and_eq_zero_iff (x y m : Nat) : (x ^^^ y) &&& m = 0 ↔ x &&& m = y &&& m := by
  rw [Nat.and_xor_distrib_right, Nat.xor_eq_zero]

theorem probeLoop_succ (h : VmeHeader) (toscaGetVmeErr : ErrFeed) (isWrite : Int)
    (wordSize : Nat) (vme_addr : toscaMapAddr_t) (n : Nat) (st : ProbeState) :
    probeLoop h toscaGetVmeErr isWrite wordSize vme_addr (n + 1) st =
      if wordSize = 1 ∨ wordSize = 2 ∨ wordSize = 4 then
        if (toscaGetVmeErr st.access.errReads).err = 0 then
          (S_dev_success, st.access.readErr)
        else if errorIsOurs h isWrite vme_addr (toscaGetVmeErr st.access.errReads) then
          (S_dev_noDevice, st.access.readErr.unlock)
        else
          probeLoop h toscaGetVmeErr isWrite wordSize vme_addr n st.access.readErr
      else
        (S_dev_badArgument, st.unlock) := rfl

theorem probe_resolved (h : VmeHeader) (toscaMapLookupAddr : Nat → toscaMapAddr_t)
    (toscaGetVmeErr : ErrFeed) (isWrite : Int) (wordSize ptr : Nat) (st : ProbeState)
    (hres : (toscaMapLookupAddr ptr).aspace ≠ 0) :
    toscaDevLibProbe h toscaMapLookupAddr toscaGetVmeErr isWrite wordSize ptr st =
      probeLoop h toscaGetVmeErr isWrite wordSize (toscaMapLookupAddr ptr) (998 + 1)
        st.lock.readErr := by
  unfold toscaDevLibProbe
  simp only [hres, if_false]

/-- The test of lines 180 to 220 succeeds exactly on the matching records. -/
theorem errorIsOurs_iff (h : VmeHeader) (isWrite : Int) (vme_addr : toscaMapAddr_t)
    (e : toscaMapVmeErr_t) :
    errorIsOurs h isWrite vme_addr e = true ↔ errMatches h isWrite vme_addr e := by
  unfold errorIsOurs errMatches
  by_cases h1 : e.source = 0 ∧ isWrite = (e.write : Int)
  · rw [if_pos h1]
    obtain ⟨hs, hw⟩ := h1
    simp only [hs, hw, true_and]
    split
    · rename_i hm
      simp [hm, xor_and_eq_zero_iff]
    · rename_i hm
      simp [hm, xor_and_eq_zero_iff]
    · rename_i hm
      simp [hm, xor_and_eq_zero_iff]
    · rename_i hm
      simp [hm, xor_and_eq_zero_iff]
    · rename_i hm0 hm1 hm2 hm3
      simp only [Bool.false_eq_true, false_iff, not_or, not_and]
      exact ⟨fun x => (hm0 x).elim, fun x => (hm1 x).elim, fun x => (hm2 x).elim,
        fun x => (hm3 x).elim⟩
  · rw [if_neg h1]
    constructor
    · intro hf
      exact absurd hf (by decide)
    · intro hm
      exact absurd ⟨hm.1, hm.2.1⟩ h1

/-! ## Properties of `toscaDevLibProbe` -/

/-- C9 (evaluation at the failing input): a read probe of width 4 at a resolving
pointer, with no error latched after the first access, returns `S_dev_success`
after one call of `epicsMutexMustLock` and no call of `epicsMutexUnlock`: the
probe lock is still held on return. -/
theorem probe_success_keeps_lock :
    toscaDevLibProbe linuxVme (a32Lookup linuxVme) (fun _ => noVmeErr) 0 4 0x1000 ⟨0, 0, 0, 0⟩
      = (S_dev_success, { locks := 1, unlocks := 0, errReads := 2, accesses := 1 }) := by
  decide

/-- C10: for a pointer that resolves and a word size of 1, 2 or 4, when the error
record read after the first access has its error flag set and matches the access
(source 0, write flag equal to `isWrite`, mode code of the descriptor's space,
address equal to the descriptor's address under the mask of the mode), the probe
returns `S_dev_noDevice` after exactly one access, two reads of the error record
and with the lock released. -/
theorem probe_matching_error_noDevice (h : VmeHeader)
    (toscaMapLookupAddr : Nat → toscaMapAddr_t) (toscaGetVmeErr : ErrFeed) (isWrite : Int)
    (wordSize ptr : Nat) (st : ProbeState)
    (hres : (toscaMapLookupAddr ptr).aspace ≠ 0)
    (hw : wordSize = 1 ∨ wordSize = 2 ∨ wordSize = 4)
    (herr : (toscaGetVmeErr (st.errReads + 1)).err ≠ 0)
    (hm : errMatches h isWrite (toscaMapLookupAddr ptr) (toscaGetVmeErr (st.errReads + 1))) :
    toscaDevLibProbe h toscaMapLookupAddr toscaGetVmeErr isWrite wordSize ptr st =
      (S_dev_noDevice,
        { locks := st.locks + 1, unlocks := st.unlocks + 1, errReads := st.errReads + 2,
          accesses := st.accesses + 1 }) := by
  rw [probe_resolved h toscaMapLookupAddr toscaGetVmeErr isWrite wordSize ptr st hres,
    probeLoop_succ, if_pos hw]
  have he : st.lock.readErr.access.errReads = st.errReads + 1 := rfl
  rw [he, if_neg herr, (errorIsOurs_iff h isWrite _ _).mpr hm, if_pos rfl]
  rfl

theorem probe_matching_error_noDevice_witness :
    errMatches linuxVme 0 (a32Lookup linuxVme 0x1002) (a32ReadErr 0x1000) ∧
    toscaDevLibProbe linuxVme (a32Lookup linuxVme) (fun _ => a32ReadErr 0x1000) 0 2 0x1002
        ⟨0, 0, 0, 0⟩ = (S_dev_noDevice, ⟨1, 1, 2, 1⟩) :=
  ⟨by decide,
    probe_matching_error_noDevice linuxVme (a32Lookup linuxVme) (fun _ => a32ReadErr 0x1000) 0 2
      0x1002 ⟨0, 0, 0, 0⟩ (by decide) (by decide) (by decide) (by decide)⟩

/-! ## The probe loop under spurious errors -/

/-- An iteration that reads a spurious error does not return: the loop goes on
from the state after the access and the read. -/
theorem probeLoop_spurious (h : VmeHeader) (toscaGetVmeErr : ErrFeed) (isWrite : Int)
    (wordSize : Nat) (vme_addr : toscaMapAddr_t) (n : Nat) (st : ProbeState)
    (hw : wordSize = 1 ∨ wordSize = 2 ∨ wordSize = 4)
    (hsp : spuriousErr h isWrite vme_addr (toscaGetVmeErr st.errReads)) :
    probeLoop h toscaGetVmeErr isWrite wordSize vme_addr (n + 1) st =
      probeLoop h toscaGetVmeErr isWrite wordSize vme_addr n st.access.readErr := by
  have he : st.access.errReads = st.errReads := rfl
  have hno : ¬ (errorIsOurs h isWrite vme_addr (toscaGetVmeErr st.errReads) = true) :=
    fun hc => hsp.2 ((errorIsOurs_iff h isWrite _ _).mp hc)
  rw [probeLoop_succ, if_pos hw, he, if_neg hsp.1, if_neg hno]

/-- After `k` spurious errors in a row the loop has `k` iterations fewer to run
and has made `k` accesses and `k` reads. -/
theorem probeLoop_skip (h : VmeHeader) (toscaGetVmeErr : ErrFeed) (isWrite : Int)
    (wordSize : Nat) (vme_addr : toscaMapAddr_t)
    (hw : wordSize = 1 ∨ wordSize = 2 ∨ wordSize = 4) (k : Nat) :
    ∀ (n : Nat) (st : ProbeState),
      (∀ j, j < k → spuriousErr h isWrite vme_addr (toscaGetVmeErr (st.errReads + j))) →
      probeLoop h toscaGetVmeErr isWrite wordSize vme_addr (n + k) st =
        probeLoop h toscaGetVmeErr isWrite wordSize vme_addr n
          { locks := st.locks, unlocks := st.unlocks, errReads := st.errReads + k,
            accesses := st.accesses + k } := by
  induction k with
  | zero =>
    intro n st _
    rfl
  | succ k ih =>
    intro n st hsp
    have h0 := hsp 0 (Nat.succ_pos k)
    rw [← Nat.add_assoc, probeLoop_spurious h toscaGetVmeErr isWrite wordSize vme_addr (n + k) st
      hw h0, ih n st.access.readErr]
    · have e1 : st.access.readErr.errReads + k = st.errReads + (k + 1) := by
        show st.errReads + 1 + k = st.errReads + (k + 1)
        omega
      have e2 : st.access.readErr.accesses + k = st.accesses + (k + 1) := by
        show st.accesses + 1 + k = st.accesses + (k + 1)
        omega
      rw [e1, e2]
      rfl
    · intro j hj
      have := hsp (j + 1) (by omega)
      have e : st.access.readErr.errReads + j = st.errReads + (j + 1) := by
        show st.errReads + 1 + j = st.errReads + (j + 1)
        omega
      rw [e]
      exact this

/-- The loop makes at most one access and one read per iteration. -/
theorem probeLoop_bound (h : VmeHeader) (toscaGetVmeErr : ErrFeed) (isWrite : Int)
    (wordSize : Nat) (vme_addr : toscaMapAddr_t) :
    ∀ (n : Nat) (st : ProbeState),
      (probeLoop h toscaGetVmeErr isWrite wordSize vme_addr n st).2.accesses ≤ st.accesses + n ∧
      (probeLoop h toscaGetVmeErr isWrite wordSize vme_addr n st).2.errReads ≤ st.errReads + n := by
  intro n
  induction n with
  | zero =>
    intro st
    exact ⟨Nat.le_refl _, Nat.le_refl _⟩
  | succ n ih =>
    intro st
    rw [probeLoop_succ]
    split
    · split
      · exact ⟨by show st.accesses + 1 ≤ _; omega, by show st.errReads + 1 ≤ _; omega⟩
      · split
        · exact ⟨by show st.accesses + 1 ≤ _; omega, by show st.errReads + 1 ≤ _; omega⟩
        · obtain ⟨h1, h2⟩ := ih st.access.readErr
          have e1 : st.access.readErr.accesses = st.accesses + 1 := rfl
          have e2 : st.access.readErr.errReads = st.errReads + 1 := rfl
          rw [e1] at h1
          rw [e2] at h2
          exact ⟨by omega, by omega⟩
    · exact ⟨by show st.accesses ≤ _; omega, by show st.errReads ≤ _; omega⟩

/-- When the loop returns `S_dev_noDevice`, it has read at least one record and
the last record read has the error flag set and matches the access. -/
theorem probeLoop_noDevice (h : VmeHeader) (toscaGetVmeErr : ErrFeed) (isWrite : Int)
    (wordSize : Nat) (vme_addr : toscaMapAddr_t) :
    ∀ (n : Nat) (st : ProbeState),
      (probeLoop h toscaGetVmeErr isWrite wordSize vme_addr n st).1 = S_dev_noDevice →
      st.errReads + 1 ≤ (probeLoop h toscaGetVmeErr isWrite wordSize vme_addr n st).2.errReads ∧
      (toscaGetVmeErr
        ((probeLoop h toscaGetVmeErr isWrite wordSize vme_addr n st).2.errReads - 1)).err ≠ 0 ∧
      errMatches h isWrite vme_addr (toscaGetVmeErr
        ((probeLoop h toscaGetVmeErr isWrite wordSize vme_addr n st).2.errReads - 1)) := by
  intro n
  induction n with
  | zero =>
    intro st hnd
    simp [probeLoop] at hnd
  | succ n ih =>
    intro st
    rw [probeLoop_succ]
    have he : st.access.errReads = st.errReads := rfl
    rw [he]
    split
    · split
      · intro hnd
        simp at hnd
      · rename_i herr
        split
        · rename_i hours
          intro _
          have e : (st.access.readErr.unlock).errReads = st.errReads + 1 := rfl
          show st.errReads + 1 ≤ (st.access.readErr.unlock).errReads ∧ _
          rw [e, Nat.add_sub_cancel]
          exact ⟨Nat.le_refl _, herr, (errorIsOurs_iff h isWrite _ _).mp hours⟩
        · intro hnd
          obtain ⟨h1, h2, h3⟩ := ih st.access.readErr hnd
          have e : st.access.readErr.errReads = st.errReads + 1 := rfl
          rw [e] at h1
          exact ⟨by omega, h2, h3⟩
    · intro hnd
      simp at hnd

/-- When the loop returns `S_dev_success` although the last record read is a
spurious error, every iteration has read a spurious error. -/
theorem probeLoop_gave_up (h : VmeHeader) (toscaGetVmeErr : ErrFeed) (isWrite : Int)
    (wordSize : Nat) (vme_addr : toscaMapAddr_t) :
    ∀ (n : Nat) (st : ProbeState),
      (probeLoop h toscaGetVmeErr isWrite wordSize vme_addr n st).1 = S_dev_success →
      spuriousErr h isWrite vme_addr (toscaGetVmeErr
        ((probeLoop h toscaGetVmeErr isWrite wordSize vme_addr n st).2.errReads - 1)) →
      ∀ j, j < n → spuriousErr h isWrite vme_addr (toscaGetVmeErr (st.errReads + j)) := by
  intro n
  induction n with
  | zero =>
    intro st _ _ j hj
    exact absurd hj (Nat.not_lt_zero j)
  | succ n ih =>
    intro st
    rw [probeLoop_succ]
    have he : st.access.errReads = st.errReads := rfl
    rw [he]
    split
    · split
      · rename_i herr
        intro _ hsp
        have e : (st.access.readErr).errReads - 1 = st.errReads := by
          show st.errReads + 1 - 1 = st.errReads
          omega
        rw [show ((S_dev_success, st.access.readErr) : DevStatus × ProbeState).2
          = st.access.readErr from rfl, e] at hsp
        exact absurd herr hsp.1
      · rename_i herr
        split
        · intro hs
          simp at hs
        · rename_i hours
          intro hs hsp j hj
          have hcur : spuriousErr h isWrite vme_addr (toscaGetVmeErr st.errReads) :=
            ⟨herr, fun hm => hours ((errorIsOurs_iff h isWrite _ _).mpr hm)⟩
          cases j with
          | zero => exact hcur
          | succ j =>
            have := ih st.access.readErr hs hsp j (by omega)
            have e : st.access.readErr.errReads + j = st.errReads + (j + 1) := by
              show st.errReads + 1 + j = st.errReads + (j + 1)
              omega
            rw [e] at this
            exact this
    · intro hs
      simp at hs

/-! ## Further properties of `toscaDevLibProbe` -/

/-- The loop never decreases the number of accesses. -/
theorem probeLoop_mono (h : VmeHeader) (toscaGetVmeErr : ErrFeed) (isWrite : Int)
    (wordSize : Nat) (vme_addr : toscaMapAddr_t) :
    ∀ (n : Nat) (st : ProbeState),
      st.accesses ≤ (probeLoop h toscaGetVmeErr isWrite wordSize vme_addr n st).2.accesses := by
  intro n
  induction n with
  | zero =>
    intro st
    exact Nat.le_refl _
  | succ n ih =>
    intro st
    rw [probeLoop_succ]
    split
    · split
      · show st.accesses ≤ st.accesses + 1
        omega
      · split
        · show st.accesses ≤ st.accesses + 1
          omega
        · have := ih st.access.readErr
          have e : st.access.readErr.accesses = st.accesses + 1 := rfl
          rw [e] at this
          omega
    · exact Nat.le_refl _

/-- C11: whenever the probe returns `S_dev_noDevice`, it has read a record after
an access, and the last record read has the error flag set and matches the
access (source 0, write flag equal to `isWrite`, mode code 0 to 3 of the
descriptor's space, address equal to the descriptor's address under the mask of
the mode); and an iteration that reads an error failing one of these conditions
does not return: the loop goes on from the state after that access and read, and
makes a further access when an iteration is left. -/
theorem probe_noDevice_only_when_matched (h : VmeHeader)
    (toscaMapLookupAddr : Nat → toscaMapAddr_t) (toscaGetVmeErr : ErrFeed) (isWrite : Int)
    (wordSize ptr : Nat) (st : ProbeState) :
    ((toscaDevLibProbe h toscaMapLookupAddr toscaGetVmeErr isWrite wordSize ptr st).1
        = S_dev_noDevice →
      st.errReads + 2 ≤
        (toscaDevLibProbe h toscaMapLookupAddr toscaGetVmeErr isWrite wordSize ptr st).2.errReads ∧
      (toscaGetVmeErr
        ((toscaDevLibProbe h toscaMapLookupAddr toscaGetVmeErr isWrite wordSize ptr st).2.errReads
          - 1)).err ≠ 0 ∧
      errMatches h isWrite (toscaMapLookupAddr ptr) (toscaGetVmeErr
        ((toscaDevLibProbe h toscaMapLookupAddr toscaGetVmeErr isWrite wordSize ptr st).2.errReads
          - 1))) ∧
    (∀ (n : Nat) (s : ProbeState), (wordSize = 1 ∨ wordSize = 2 ∨ wordSize = 4) →
      spuriousErr h isWrite (toscaMapLookupAddr ptr) (toscaGetVmeErr s.errReads) →
      probeLoop h toscaGetVmeErr isWrite wordSize (toscaMapLookupAddr ptr) (n + 1) s =
        probeLoop h toscaGetVmeErr isWrite wordSize (toscaMapLookupAddr ptr) n s.access.readErr ∧
      (1 ≤ n → s.accesses + 2 ≤
        (probeLoop h toscaGetVmeErr isWrite wordSize (toscaMapLookupAddr ptr) (n + 1)
          s).2.accesses)) := by
  constructor
  · intro hnd
    by_cases hres : (toscaMapLookupAddr ptr).aspace = 0
    · simp [toscaDevLibProbe, hres] at hnd
    · rw [probe_resolved h toscaMapLookupAddr toscaGetVmeErr isWrite wordSize ptr st hres] at hnd ⊢
      obtain ⟨h1, h2, h3⟩ := probeLoop_noDevice h toscaGetVmeErr isWrite wordSize
        (toscaMapLookupAddr ptr) (998 + 1) st.lock.readErr hnd
      have e : st.lock.readErr.errReads = st.errReads + 1 := rfl
      rw [e] at h1
      exact ⟨by omega, h2, h3⟩
  · intro n s hw hsp
    have hstep := probeLoop_spurious h toscaGetVmeErr isWrite wordSize (toscaMapLookupAddr ptr)
      n s hw hsp
    refine ⟨hstep, fun hn => ?_⟩
    rw [hstep]
    obtain ⟨m, rfl⟩ : ∃ m, n = m + 1 := ⟨n - 1, by omega⟩
    rw [probeLoop_succ, if_pos hw]
    have e : s.access.readErr.access.readErr.accesses = s.accesses + 2 := rfl
    split
    · exact Nat.le_of_eq e.symm
    · split
      · exact Nat.le_of_eq e.symm
      · have hb := (probeLoop_mono h toscaGetVmeErr isWrite wordSize (toscaMapLookupAddr ptr) m
          s.access.readErr.access.readErr)
        rw [e] at hb
        exact hb

theorem probe_noDevice_only_when_matched_witness :
    (toscaDevLibProbe linuxVme (a32Lookup linuxVme) (spuriousThen 2 (a32ReadErr 0x1000)) 0 2
        0x1002 ⟨0, 0, 0, 0⟩).1 = S_dev_noDevice ∧
    errMatches linuxVme 0 (a32Lookup linuxVme 0x1002) (spuriousThen 2 (a32ReadErr 0x1000)
      ((toscaDevLibProbe linuxVme (a32Lookup linuxVme) (spuriousThen 2 (a32ReadErr 0x1000)) 0 2
        0x1002 ⟨0, 0, 0, 0⟩).2.errReads - 1)) ∧
    (0 : Nat) + 2 ≤ (probeLoop linuxVme (spuriousThen 2 (a32ReadErr 0x1000)) 0 2
      (a32Lookup linuxVme 0x1002) (1 + 1) ⟨1, 0, 1, 0⟩).2.accesses :=
  have hx := probe_noDevice_only_when_matched linuxVme (a32Lookup linuxVme)
    (spuriousThen 2 (a32ReadErr 0x1000)) 0 2 0x1002 ⟨0, 0, 0, 0⟩
  ⟨by decide, (hx.1 (by decide)).2.2,
    (hx.2 1 ⟨1, 0, 1, 0⟩ (by decide) (by decide)).2 (by decide)⟩

/-- C12: for a pointer that resolves and a word size of 1, 2 or 4, when the first
`k` records read after an access are spurious errors and the next record has no
error flag, the probe returns `S_dev_success`, for every `k`; when `k < 999` it
has then made `k + 1` accesses and `k + 2` reads of the error record. -/
theorem probe_spurious_then_ok (h : VmeHeader)
    (toscaMapLookupAddr : Nat → toscaMapAddr_t) (toscaGetVmeErr : ErrFeed) (isWrite : Int)
    (wordSize ptr : Nat) (st : ProbeState) (k : Nat)
    (hres : (toscaMapLookupAddr ptr).aspace ≠ 0)
    (hw : wordSize = 1 ∨ wordSize = 2 ∨ wordSize = 4)
    (hsp : ∀ j, j < k →
      spuriousErr h isWrite (toscaMapLookupAddr ptr) (toscaGetVmeErr (st.errReads + 1 + j)))
    (hok : (toscaGetVmeErr (st.errReads + 1 + k)).err = 0) :
    (toscaDevLibProbe h toscaMapLookupAddr toscaGetVmeErr isWrite wordSize ptr st).1
      = S_dev_success ∧
    (k < 999 →
      (toscaDevLibProbe h toscaMapLookupAddr toscaGetVmeErr isWrite wordSize ptr st).2.accesses
        = st.accesses + k + 1 ∧
      (toscaDevLibProbe h toscaMapLookupAddr toscaGetVmeErr isWrite wordSize ptr st).2.errReads
        = st.errReads + k + 2) := by
  rw [probe_resolved h toscaMapLookupAddr toscaGetVmeErr isWrite wordSize ptr st hres]
  by_cases hk : k < 999
  · have e : 998 + 1 = (998 - k + 1) + k := by omega
    rw [e, probeLoop_skip h toscaGetVmeErr isWrite wordSize (toscaMapLookupAddr ptr) hw k
      (998 - k + 1) st.lock.readErr hsp, probeLoop_succ, if_pos hw]
    split
    · refine ⟨rfl, fun _ => ⟨rfl, ?_⟩⟩
      show st.errReads + 1 + k + 1 = st.errReads + k + 2
      omega
    · rename_i hc
      exact absurd hok hc
  · have e : 998 + 1 = 0 + 999 := by omega
    rw [e, probeLoop_skip h toscaGetVmeErr isWrite wordSize (toscaMapLookupAddr ptr) hw 999 0
      st.lock.readErr (fun j hj => hsp j (by omega))]
    exact ⟨rfl, fun hc => absurd hc hk⟩

theorem probe_spurious_then_ok_witness :
    (toscaDevLibProbe linuxVme (a32Lookup linuxVme) (spuriousThen 3 noVmeErr) 0 4 0x1000
      ⟨0, 0, 0, 0⟩).1 = S_dev_success ∧
    (toscaDevLibProbe linuxVme (a32Lookup linuxVme) (spuriousThen 3 noVmeErr) 0 4 0x1000
      ⟨0, 0, 0, 0⟩).2.accesses = 0 + 3 + 1 :=
  have hx := probe_spurious_then_ok linuxVme (a32Lookup linuxVme) (spuriousThen 3 noVmeErr) 0 4
    0x1000 ⟨0, 0, 0, 0⟩ 3 (by decide) (by decide) (by decide) (by decide)
  ⟨hx.1, (hx.2 (by decide)).1⟩

/-- C13 (counterexample): the records read after the first 999 accesses are
spurious errors and the record that a 1000th access would be followed by matches
the access; the probe makes 999 accesses only and returns `S_dev_success`, not
`S_dev_noDevice`. -/
theorem probe_gives_up_after_999 :
    (∀ j, j < 999 → spuriousErr linuxVme 0 (a32Lookup linuxVme 0x1000)
      (spuriousThen 999 (a32ReadErr 0x1000) (1 + j))) ∧
    (spuriousThen 999 (a32ReadErr 0x1000) 1000).err ≠ 0 ∧
    errMatches linuxVme 0 (a32Lookup linuxVme 0x1000)
      (spuriousThen 999 (a32ReadErr 0x1000) 1000) ∧
    toscaDevLibProbe linuxVme (a32Lookup linuxVme) (spuriousThen 999 (a32ReadErr 0x1000)) 0 4
      0x1000 ⟨0, 0, 0, 0⟩
      = (S_dev_success, { locks := 1, unlocks := 1, errReads := 1000, accesses := 999 }) := by
  have hsp : ∀ j, j < 999 → spuriousErr linuxVme 0 (a32Lookup linuxVme 0x1000)
      (spuriousThen 999 (a32ReadErr 0x1000) (1 + j)) := by
    intro j hj
    unfold spuriousThen
    rw [if_pos (by omega)]
    decide
  refine ⟨hsp, by decide, by decide, ?_⟩
  rw [probe_resolved linuxVme (a32Lookup linuxVme) _ 0 4 0x1000 ⟨0, 0, 0, 0⟩ (by decide)]
  have e : 998 + 1 = 0 + 999 := rfl
  rw [e, probeLoop_skip linuxVme _ 0 4 (a32Lookup linuxVme 0x1000) (by decide) 999 0
    (ProbeState.readErr (ProbeState.lock ⟨0, 0, 0, 0⟩)) hsp]
  rfl

/-- C13 (amended): the probe never makes more than 999 accesses; for a pointer
that resolves and a word size of 1, 2 or 4, when the records read after the first
998 accesses are spurious errors, a 999th access is still made and the record
read after it decides the outcome (`S_dev_noDevice` when it matches); when the
records read after all 999 accesses are spurious errors, the probe gives up and
returns `S_dev_success` with the lock released; and the probe returns
`S_dev_success` after a spurious last record only in that case. -/
theorem probe_iteration_cap (h : VmeHeader)
    (toscaMapLookupAddr : Nat → toscaMapAddr_t) (toscaGetVmeErr : ErrFeed) (isWrite : Int)
    (wordSize ptr : Nat) (st : ProbeState) :
    (toscaDevLibProbe h toscaMapLookupAddr toscaGetVmeErr isWrite wordSize ptr st).2.accesses
      ≤ st.accesses + 999 ∧
    ((toscaMapLookupAddr ptr).aspace ≠ 0 → (wordSize = 1 ∨ wordSize = 2 ∨ wordSize = 4) →
      ((∀ j, j < 998 → spuriousErr h isWrite (toscaMapLookupAddr ptr)
          (toscaGetVmeErr (st.errReads + 1 + j))) →
        (toscaDevLibProbe h toscaMapLookupAddr toscaGetVmeErr isWrite wordSize ptr
          st).2.accesses = st.accesses + 999 ∧
        ((toscaGetVmeErr (st.errReads + 999)).err ≠ 0 →
          errMatches h isWrite (toscaMapLookupAddr ptr) (toscaGetVmeErr (st.errReads + 999)) →
          (toscaDevLibProbe h toscaMapLookupAddr toscaGetVmeErr isWrite wordSize ptr st).1
            = S_dev_noDevice)) ∧
      ((∀ j, j < 999 → spuriousErr h isWrite (toscaMapLookupAddr ptr)
          (toscaGetVmeErr (st.errReads + 1 + j))) →
        toscaDevLibProbe h toscaMapLookupAddr toscaGetVmeErr isWrite wordSize ptr st =
          (S_dev_success,
            { locks := st.locks + 1, unlocks := st.unlocks + 1, errReads := st.errReads + 1000,
              accesses := st.accesses + 999 })) ∧
      ((toscaDevLibProbe h toscaMapLookupAddr toscaGetVmeErr isWrite wordSize ptr st).1
          = S_dev_success →
        spuriousErr h isWrite (toscaMapLookupAddr ptr) (toscaGetVmeErr
          ((toscaDevLibProbe h toscaMapLookupAddr toscaGetVmeErr isWrite wordSize ptr
            st).2.errReads - 1)) →
        ∀ j, j < 999 → spuriousErr h isWrite (toscaMapLookupAddr ptr)
          (toscaGetVmeErr (st.errReads + 1 + j)))) := by
  constructor
  · by_cases hres : (toscaMapLookupAddr ptr).aspace = 0
    · simp [toscaDevLibProbe, hres]
    · rw [probe_resolved h toscaMapLookupAddr toscaGetVmeErr isWrite wordSize ptr st hres]
      exact (probeLoop_bound h toscaGetVmeErr isWrite wordSize (toscaMapLookupAddr ptr) (998 + 1)
        st.lock.readErr).1
  · intro hres hw
    rw [probe_resolved h toscaMapLookupAddr toscaGetVmeErr isWrite wordSize ptr st hres]
    refine ⟨fun hsp => ?_, fun hsp => ?_, fun hs hlast => ?_⟩
    · have e : 998 + 1 = (0 + 1) + 998 := rfl
      rw [e, probeLoop_skip h toscaGetVmeErr isWrite wordSize (toscaMapLookupAddr ptr) hw 998
        (0 + 1) st.lock.readErr hsp, probeLoop_succ, if_pos hw]
      split
      · rename_i h0
        exact ⟨rfl, fun hne _ => absurd h0 hne⟩
      · split
        · exact ⟨rfl, fun _ _ => rfl⟩
        · rename_i hours
          refine ⟨rfl, fun _ hm => ?_⟩
          exact absurd ((errorIsOurs_iff h isWrite _ _).mpr hm) hours
    · have e : 998 + 1 = 0 + 999 := rfl
      rw [e, probeLoop_skip h toscaGetVmeErr isWrite wordSize (toscaMapLookupAddr ptr) hw 999 0
        st.lock.readErr hsp]
      rfl
    · exact probeLoop_gave_up h toscaGetVmeErr isWrite wordSize (toscaMapLookupAddr ptr)
        (998 + 1) st.lock.readErr hs hlast

theorem probe_iteration_cap_witness :
    (toscaDevLibProbe linuxVme (a32Lookup linuxVme) (spuriousThen 998 (a32ReadErr 0x1000)) 0 4
      0x1000 ⟨0, 0, 0, 0⟩).2.accesses = 0 + 999 ∧
    (toscaDevLibProbe linuxVme (a32Lookup linuxVme) (spuriousThen 998 (a32ReadErr 0x1000)) 0 4
      0x1000 ⟨0, 0, 0, 0⟩).1 = S_dev_noDevice :=
  have hx := ((probe_iteration_cap linuxVme (a32Lookup linuxVme)
    (spuriousThen 998 (a32ReadErr 0x1000)) 0 4 0x1000 ⟨0, 0, 0, 0⟩).2 (by decide)
      (by decide)).1 (fun j hj => by
        unfold spuriousThen
        rw [if_pos (by show 0 + 1 + j ≤ 998; omega)]
        decide)
  ⟨hx.1, hx.2 (by decide) (by decide)⟩

/-- C14: when the lookup does not resolve the pointer, the probe returns
`S_dev_addressNotFound` for every word size without taking the lock, reading the
error record or accessing the target; when the pointer resolves and the word
size is not 1, 2 or 4, it returns `S_dev_badArgument` without any access of the
target (after one lock, one read of the error record and one unlock). -/
theorem probe_immediate_failures (h : VmeHeader)
    (toscaMapLookupAddr : Nat → toscaMapAddr_t) (toscaGetVmeErr : ErrFeed) (isWrite : Int)
    (wordSize ptr : Nat) (st : ProbeState) :
    ((toscaMapLookupAddr ptr).aspace = 0 →
      toscaDevLibProbe h toscaMapLookupAddr toscaGetVmeErr isWrite wordSize ptr st
        = (S_dev_addressNotFound, st)) ∧
    ((toscaMapLookupAddr ptr).aspace ≠ 0 → ¬ (wordSize = 1 ∨ wordSize = 2 ∨ wordSize = 4) →
      toscaDevLibProbe h toscaMapLookupAddr toscaGetVmeErr isWrite wordSize ptr st
        = (S_dev_badArgument,
          { locks := st.locks + 1, unlocks := st.unlocks + 1, errReads := st.errReads + 1,
            accesses := st.accesses })) := by
  constructor
  · intro hres
    simp [toscaDevLibProbe, hres]
  · intro hres hw
    rw [probe_resolved h toscaMapLookupAddr toscaGetVmeErr isWrite wordSize ptr st hres,
      probeLoop_succ, if_neg hw]
    rfl

theorem probe_immediate_failures_witness :
    toscaDevLibProbe linuxVme (fun _ => ⟨0, 0⟩) (fun _ => noVmeErr) 1 8 0x1000 ⟨0, 0, 0, 0⟩
      = (S_dev_addressNotFound, ⟨0, 0, 0, 0⟩) ∧
    toscaDevLibProbe linuxVme (a32Lookup linuxVme) (fun _ => noVmeErr) 1 8 0x1000 ⟨0, 0, 0, 0⟩
      = (S_dev_badArgument, ⟨0 + 1, 0 + 1, 0 + 1, 0⟩) :=
  ⟨(probe_immediate_failures linuxVme (fun _ => ⟨0, 0⟩) (fun _ => noVmeErr) 1 8 0x1000
      ⟨0, 0, 0, 0⟩).1 (by decide),
    (probe_immediate_failures linuxVme (a32Lookup linuxVme) (fun _ => noVmeErr) 1 8 0x1000
      ⟨0, 0, 0, 0⟩).2 (by decide) (by decide)⟩

/-! ## Unfolding the interrupt functions -/

theorem toscaStartIntrThread_tid (env : IntrEnv) (m vec : Nat) (st : IntrState) :
    (toscaStartIntrThread env m vec st).1 =
      if env.calloc st.callocs = 0 then 0 else env.epicsThreadCreate st.threadCreates := by
  unfold toscaStartIntrThread
  by_cases h1 : env.calloc st.callocs = 0
  · simp [h1]
  · by_cases h2 : env.epicsThreadCreate st.threadCreates = 0
    · simp [h1, h2]
    · simp [h1, h2]

theorem toscaStartIntrThread_state (env : IntrEnv) (m vec : Nat) (st : IntrState) :
    (toscaStartIntrThread env m vec st).2.toscaDevLibInterruptThreads
      = st.toscaDevLibInterruptThreads ∧
    (toscaStartIntrThread env m vec st).2.locks = st.locks ∧
    (toscaStartIntrThread env m vec st).2.unlocks = st.unlocks ∧
    (toscaStartIntrThread env m vec st).2.connectCalls = st.connectCalls ∧
    (toscaStartIntrThread env m vec st).2.disconnectCalls = st.disconnectCalls ∧
    ((toscaStartIntrThread env m vec st).1 = 0 →
      (toscaStartIntrThread env m vec st).2.threads = st.threads) ∧
    ((toscaStartIntrThread env m vec st).1 ≠ 0 →
      (toscaStartIntrThread env m vec st).2.threads.length = st.threads.length + 1) := by
  unfold toscaStartIntrThread
  by_cases h1 : env.calloc st.callocs = 0
  · simp [h1]
  · by_cases h2 : env.epicsThreadCreate st.threadCreates = 0
    · simp [h1, h2]
    · simp [h1, h2]

/-- The thread id that `toscaStartIntrThread` returns in state `st`. -/
theorem startThreadFor_tid (env : IntrEnv) (v : Nat) (st : IntrState) :
    (startThreadFor env v st).1 =
      if env.calloc st.callocs = 0 then 0 else env.epicsThreadCreate st.threadCreates := by
  unfold startThreadFor
  split <;> exact toscaStartIntrThread_tid env _ _ st

/-- Starting a thread touches neither the table, the lock nor the controller, and
adds one thread exactly when the returned id is not `NULL`. -/
theorem startThreadFor_state (env : IntrEnv) (v : Nat) (st : IntrState) :
    (startThreadFor env v st).2.toscaDevLibInterruptThreads = st.toscaDevLibInterruptThreads ∧
    (startThreadFor env v st).2.locks = st.locks ∧
    (startThreadFor env v st).2.unlocks = st.unlocks ∧
    (startThreadFor env v st).2.connectCalls = st.connectCalls ∧
    (startThreadFor env v st).2.disconnectCalls = st.disconnectCalls ∧
    ((startThreadFor env v st).1 = 0 → (startThreadFor env v st).2.threads = st.threads) ∧
    ((startThreadFor env v st).1 ≠ 0 →
      (startThreadFor env v st).2.threads.length = st.threads.length + 1) := by
  unfold startThreadFor
  split <;> exact toscaStartIntrThread_state env _ _ st

theorem connectHandler_eq (env : IntrEnv) (v f p : Nat) (st : IntrState) :
    connectHandler env v f p st =
      (if env.toscaIntrConnectHandler st.connectCalls.length
          ⟨if v < 256 then env.INTR_VME_LVL_ANY else env.INTR_USER1_INTR (v &&& 31), v, f, p⟩ ≠ 0
        then S_dev_vecInstlFail else S_dev_success,
        { st with
          connectCalls := st.connectCalls ++
            [⟨if v < 256 then env.INTR_VME_LVL_ANY else env.INTR_USER1_INTR (v &&& 31), v, f, p⟩],
          unlocks := st.unlocks + 1 }) := by
  by_cases hr : env.toscaIntrConnectHandler st.connectCalls.length
      ⟨if v < 256 then env.INTR_VME_LVL_ANY else env.INTR_USER1_INTR (v &&& 31), v, f, p⟩ = 0
  · simp [connectHandler, hr, IntrState.unlock]
  · simp [connectHandler, hr, IntrState.unlock]

theorem connectHandler_state (env : IntrEnv) (v f p : Nat) (st : IntrState) :
    (connectHandler env v f p st).2.toscaDevLibInterruptThreads
      = st.toscaDevLibInterruptThreads ∧
    (connectHandler env v f p st).2.threads = st.threads ∧
    (connectHandler env v f p st).2.locks = st.locks ∧
    (connectHandler env v f p st).2.unlocks = st.unlocks + 1 ∧
    (connectHandler env v f p st).2.connectCalls = st.connectCalls ++
      [⟨if v < 256 then env.INTR_VME_LVL_ANY else env.INTR_USER1_INTR (v &&& 31), v, f, p⟩] := by
  rw [connectHandler_eq]
  exact ⟨rfl, rfl, rfl, rfl, rfl⟩

theorem connectHandler_status (env : IntrEnv) (v f p : Nat) (st : IntrState) :
    (connectHandler env v f p st).1 =
      if env.toscaIntrConnectHandler st.connectCalls.length
          ⟨if v < 256 then env.INTR_VME_LVL_ANY else env.INTR_USER1_INTR (v &&& 31), v, f, p⟩ ≠ 0
      then S_dev_vecInstlFail else S_dev_success := by
  rw [connectHandler_eq]

theorem connect_bad (env : IntrEnv) (v f p : Nat) (st : IntrState) (hv : 288 ≤ v) :
    toscaDevLibConnectInterrupt env v f p st = (S_dev_badArgument, st) := by
  unfold toscaDevLibConnectInterrupt
  rw [if_pos (by omega)]

theorem connect_existing (env : IntrEnv) (v f p : Nat) (st : IntrState) (hv : v < 288)
    (hex : st.toscaDevLibInterruptThreads v ≠ 0) :
    toscaDevLibConnectInterrupt env v f p st = connectHandler env v f p st.lock := by
  unfold toscaDevLibConnectInterrupt
  rw [if_neg (by omega)]
  have : st.lock.toscaDevLibInterruptThreads v = st.toscaDevLibInterruptThreads v := rfl
  simp only [this, if_neg hex]

theorem connect_new (env : IntrEnv) (v f p : Nat) (st : IntrState) (hv : v < 288)
    (hno : st.toscaDevLibInterruptThreads v = 0) :
    toscaDevLibConnectInterrupt env v f p st =
      if (startThreadFor env v st.lock).1 = 0 then
        (S_dev_noMemory,
          ((startThreadFor env v st.lock).2.setThread v (startThreadFor env v st.lock).1).unlock)
      else
        connectHandler env v f p
          ((startThreadFor env v st.lock).2.setThread v (startThreadFor env v st.lock).1) := by
  unfold toscaDevLibConnectInterrupt
  rw [if_neg (by omega)]
  have h1 : st.lock.toscaDevLibInterruptThreads v = st.toscaDevLibInterruptThreads v := rfl
  have h2 : ∀ (s : IntrState) (t : Nat), (s.setThread v t).toscaDevLibInterruptThreads v = t := by
    intro s t
    simp [IntrState.setThread]
  simp only [h1, hno, if_true, h2]

/-- What one call of `toscaDevLibConnectInterrupt` for a vector below 288 does to
the thread table and to the list of dispatch threads: an entry that is set stays,
an empty entry receives the id returned by the thread start, and a thread is
added exactly when that id is not `NULL`. -/
theorem connect_table_threads (env : IntrEnv) (v f p : Nat) (st : IntrState) (hv : v < 288) :
    (st.toscaDevLibInterruptThreads v ≠ 0 →
      (toscaDevLibConnectInterrupt env v f p st).2.toscaDevLibInterruptThreads
        = st.toscaDevLibInterruptThreads ∧
      (toscaDevLibConnectInterrupt env v f p st).2.threads = st.threads) ∧
    (st.toscaDevLibInterruptThreads v = 0 →
      (∀ u, (toscaDevLibConnectInterrupt env v f p st).2.toscaDevLibInterruptThreads u =
        if u = v then
          (if env.calloc st.callocs = 0 then 0 else env.epicsThreadCreate st.threadCreates)
        else st.toscaDevLibInterruptThreads u) ∧
      ((if env.calloc st.callocs = 0 then 0 else env.epicsThreadCreate st.threadCreates) = 0 →
        (toscaDevLibConnectInterrupt env v f p st).2.threads = st.threads) ∧
      ((if env.calloc st.callocs = 0 then 0 else env.epicsThreadCreate st.threadCreates) ≠ 0 →
        (toscaDevLibConnectInterrupt env v f p st).2.threads.length = st.threads.length + 1)) := by
  constructor
  · intro hex
    rw [connect_existing env v f p st hv hex]
    obtain ⟨h1, h2, -⟩ := connectHandler_state env v f p st.lock
    exact ⟨h1, h2⟩
  · intro hno
    have htid := startThreadFor_tid env v st.lock
    obtain ⟨s1, -, -, -, -, s6, s7⟩ := startThreadFor_state env v st.lock
    have hc : st.lock.callocs = st.callocs := rfl
    have ht : st.lock.threadCreates = st.threadCreates := rfl
    have hth : st.lock.threads = st.threads := rfl
    rw [hc, ht] at htid
    rw [hth] at s6 s7
    rw [connect_new env v f p st hv hno]
    by_cases h0 : (startThreadFor env v st.lock).1 = 0
    · rw [if_pos h0]
      rw [← htid]
      refine ⟨fun u => ?_, fun _ => s6 h0, fun hne => absurd h0 hne⟩
      show (if u = v then (startThreadFor env v st.lock).1
        else (startThreadFor env v st.lock).2.toscaDevLibInterruptThreads u) = _
      rw [s1]
      rfl
    · rw [if_neg h0]
      obtain ⟨c1, c2, -⟩ := connectHandler_state env v f p
        ((startThreadFor env v st.lock).2.setThread v (startThreadFor env v st.lock).1)
      rw [c1, c2, ← htid]
      refine ⟨fun u => ?_, fun h0' => absurd h0' h0, fun _ => s7 h0⟩
      show (if u = v then (startThreadFor env v st.lock).1
        else (startThreadFor env v st.lock).2.toscaDevLibInterruptThreads u) = _
      rw [s1]
      rfl

theorem disconnect_eq (env : IntrEnv) (v f : Nat) (st : IntrState) :
    toscaDevLibDisconnectInterrupt env v f st =
      (if env.toscaIntrDisconnectHandler st.disconnectCalls.length
          ⟨if v < 256 then env.INTR_VME_LVL_ANY else env.INTR_USER1_INTR (v &&& 31), v, f, 0⟩ ≠ 0
        then S_dev_success else S_dev_vectorNotInUse,
        { st with
          disconnectCalls := st.disconnectCalls ++
            [⟨if v < 256 then env.INTR_VME_LVL_ANY else env.INTR_USER1_INTR (v &&& 31), v, f,
              0⟩] }) := rfl

/-- Connecting a sequence of requests and then one more. -/
theorem connectAll_append (env : IntrEnv) (l : List ConnectReq) (r : ConnectReq)
    (st : IntrState) :
    connectAll env (l ++ [r]) st =
      (toscaDevLibConnectInterrupt env r.vectorNumber r.function r.parameter
        (connectAll env l st)).2 := by
  simp [connectAll, List.foldl_append]

/-- When every thread start succeeds, after a sequence of connects from the empty
table the entries set are those of the vectors below 288 in the sequence, and
there is one dispatch thread for each of them. -/
theorem connectAll_invariant (env : IntrEnv)
    (hcalloc : ∀ n, env.calloc n ≠ 0) (hcreate : ∀ n, env.epicsThreadCreate n ≠ 0)
    (st0 : IntrState) (hempty : ∀ v, st0.toscaDevLibInterruptThreads v = 0)
    (hnone : st0.threads = []) (reqs : List ConnectReq) :
    (∀ v, (connectAll env reqs st0).toscaDevLibInterruptThreads v ≠ 0 ↔
      v ∈ ((reqs.map (fun r => r.vectorNumber)).filter (fun v => decide (v < 288))).toFinset) ∧
    (connectAll env reqs st0).threads.length =
      ((reqs.map (fun r => r.vectorNumber)).filter (fun v => decide (v < 288))).toFinset.card := by
  induction reqs using List.reverseRecOn with
  | nil =>
    constructor
    · intro v
      simp [connectAll, hempty v]
    · simp [connectAll, hnone]
  | append_singleton l r ih =>
    obtain ⟨ih1, ih2⟩ := ih
    rw [connectAll_append]
    by_cases hv : r.vectorNumber < 288
    · have hS : ((((l ++ [r]).map (fun r => r.vectorNumber)).filter
          (fun v => decide (v < 288))).toFinset) =
          insert r.vectorNumber
            (((l.map (fun r => r.vectorNumber)).filter (fun v => decide (v < 288))).toFinset) := by
        ext x
        simp [hv]
        constructor
        · rintro (hx | hx)
          · exact Or.inr hx
          · exact Or.inl hx
        · rintro (hx | hx)
          · exact Or.inr hx
          · exact Or.inl hx
      rw [hS]
      obtain ⟨hA, hB⟩ := connect_table_threads env r.vectorNumber r.function r.parameter
        (connectAll env l st0) hv
      by_cases hex : (connectAll env l st0).toscaDevLibInterruptThreads r.vectorNumber = 0
      · obtain ⟨hB1, -, hB3⟩ := hB hex
        have htid : (if env.calloc (connectAll env l st0).callocs = 0 then 0
            else env.epicsThreadCreate (connectAll env l st0).threadCreates) ≠ 0 := by
          rw [if_neg (hcalloc _)]
          exact hcreate _
        have hnot : r.vectorNumber ∉
            ((l.map (fun r => r.vectorNumber)).filter (fun v => decide (v < 288))).toFinset :=
          fun hm => (ih1 r.vectorNumber).mpr hm hex
        constructor
        · intro v
          rw [hB1 v, Finset.mem_insert]
          by_cases hvr : v = r.vectorNumber
          · rw [if_pos hvr]
            exact ⟨fun _ => Or.inl hvr, fun _ => htid⟩
          · rw [if_neg hvr, ih1 v]
            exact ⟨fun hm => Or.inr hm, fun hm => hm.resolve_left hvr⟩
        · rw [hB3 htid, ih2, Finset.card_insert_of_not_mem hnot]
      · obtain ⟨hA1, hA2⟩ := hA hex
        have hmem : r.vectorNumber ∈
            ((l.map (fun r => r.vectorNumber)).filter (fun v => decide (v < 288))).toFinset :=
          (ih1 r.vectorNumber).mp hex
        rw [hA1, hA2, Finset.insert_eq_of_mem hmem]
        exact ⟨ih1, ih2⟩
    · have hS : ((((l ++ [r]).map (fun r => r.vectorNumber)).filter
          (fun v => decide (v < 288))).toFinset) =
          (((l.map (fun r => r.vectorNumber)).filter (fun v => decide (v < 288))).toFinset) := by
        ext x
        simp [hv]
      rw [hS, connect_bad env r.vectorNumber r.function r.parameter _ (by omega)]
      exact ⟨ih1, ih2⟩

/-! ## Properties of the interrupt functions -/

/-- C15: for every vector number of 288 or more `toscaDevLibConnectInterrupt`
returns `S_dev_badArgument` and leaves the state as it is: no dispatch thread is
started, the thread table is unchanged, the controller is not called (and the
lock is not taken). -/
theorem connect_vector_out_of_range (env : IntrEnv) (vectorNumber function parameter : Nat)
    (st : IntrState) (hv : 288 ≤ vectorNumber) :
    toscaDevLibConnectInterrupt env vectorNumber function parameter st
      = (S_dev_badArgument, st) :=
  connect_bad env vectorNumber function parameter st hv

theorem connect_vector_out_of_range_witness :
    288 ≤ 288 ∧
    toscaDevLibConnectInterrupt okEnv 288 1 2 IntrState.init
      = (S_dev_badArgument, IntrState.init) :=
  ⟨by decide, connect_vector_out_of_range okEnv 288 1 2 IntrState.init (by decide)⟩

/-- C16 (evaluation at the failing input): for the vector number 288, outside
`[0, 288)`, `toscaDevLibDisconnectInterrupt` calls the controller, with the mask
of user interrupt `288 & 31 = 0`, and returns what the controller decides,
`S_dev_success` or `S_dev_vectorNotInUse`, never `S_dev_badArgument`. -/
theorem disconnect_out_of_range_forwarded :
    ¬ (288 < 288) ∧
    ∀ (env : IntrEnv) (function : Nat) (st : IntrState),
      (toscaDevLibDisconnectInterrupt env 288 function st).2.disconnectCalls
        = st.disconnectCalls ++ [⟨env.INTR_USER1_INTR 0, 288, function, 0⟩] ∧
      (toscaDevLibDisconnectInterrupt env 288 function st).1 ≠ S_dev_badArgument ∧
      (toscaDevLibDisconnectInterrupt okEnv 288 function IntrState.init).1 = S_dev_success := by
  refine ⟨by decide, fun env function st => ⟨rfl, ?_, rfl⟩⟩
  rw [disconnect_eq]
  have key : ∀ (c : Prop) [Decidable c],
      (if c then S_dev_success else S_dev_vectorNotInUse) ≠ S_dev_badArgument := by
    intro c _
    split <;> decide
  exact key _

/-- C17: starting from the empty thread table, in surroundings in which every
thread start and every controller call succeeds, after any sequence of calls of
`toscaDevLibConnectInterrupt` the number of dispatch threads started equals the
number of distinct vector numbers below 288 in the sequence, each of which is
connected with `S_dev_success`; two connects to one vector start exactly one
thread and connects to two different vectors start two; and in any surroundings
a table entry that is set is neither cleared nor replaced by a connect or a
disconnect. -/
theorem connect_thread_invariant (env : IntrEnv)
    (hcalloc : ∀ n, env.calloc n ≠ 0) (hcreate : ∀ n, env.epicsThreadCreate n ≠ 0)
    (hctrl : ∀ n c, env.toscaIntrConnectHandler n c = 0)
    (st0 : IntrState) (hempty : ∀ v, st0.toscaDevLibInterruptThreads v = 0)
    (hnone : st0.threads = []) :
    (∀ reqs : List ConnectReq,
      (connectAll env reqs st0).threads.length =
        ((reqs.map (fun r => r.vectorNumber)).filter (fun v => decide (v < 288))).dedup.length) ∧
    (∀ (s : IntrState) (v f p : Nat), v < 288 →
      (toscaDevLibConnectInterrupt env v f p s).1 = S_dev_success) ∧
    (∀ v f1 p1 f2 p2 : Nat, v < 288 →
      (connectAll env [⟨v, f1, p1⟩, ⟨v, f2, p2⟩] st0).threads.length = 1) ∧
    (∀ v1 v2 f1 p1 f2 p2 : Nat, v1 < 288 → v2 < 288 → v1 ≠ v2 →
      (connectAll env [⟨v1, f1, p1⟩, ⟨v2, f2, p2⟩] st0).threads.length = 2) ∧
    (∀ (env1 : IntrEnv) (s : IntrState) (u v f p : Nat),
      s.toscaDevLibInterruptThreads u ≠ 0 →
      (toscaDevLibConnectInterrupt env1 v f p s).2.toscaDevLibInterruptThreads u
        = s.toscaDevLibInterruptThreads u ∧
      (toscaDevLibDisconnectInterrupt env1 v f s).2.toscaDevLibInterruptThreads u
        = s.toscaDevLibInterruptThreads u) := by
  have hcount : ∀ reqs : List ConnectReq,
      (connectAll env reqs st0).threads.length =
        ((reqs.map (fun r => r.vectorNumber)).filter
          (fun v => decide (v < 288))).dedup.length := by
    intro reqs
    rw [(connectAll_invariant env hcalloc hcreate st0 hempty hnone reqs).2, List.card_toFinset]
  refine ⟨hcount, ?_, ?_, ?_, ?_⟩
  · intro s v f p hv
    by_cases hex : s.toscaDevLibInterruptThreads v = 0
    · have h0 : (startThreadFor env v s.lock).1 ≠ 0 := by
        rw [startThreadFor_tid, if_neg (hcalloc _)]
        exact hcreate _
      rw [connect_new env v f p s hv hex, if_neg h0, connectHandler_status, hctrl]
      simp
    · rw [connect_existing env v f p s hv hex, connectHandler_status, hctrl]
      simp
  · intro v f1 p1 f2 p2 hv
    rw [hcount]
    simp [hv]
  · intro v1 v2 f1 p1 f2 p2 h1 h2 hne
    rw [hcount]
    simp [h1, h2, hne]
  · intro env1 s u v f p hset
    refine ⟨?_, rfl⟩
    by_cases hv : v < 288
    · obtain ⟨hA, hB⟩ := connect_table_threads env1 v f p s hv
      by_cases hex : s.toscaDevLibInterruptThreads v = 0
      · rw [(hB hex).1 u]
        have hne : u ≠ v := fun e => hset (e ▸ hex)
        rw [if_neg hne]
      · rw [(hA hex).1]
    · rw [connect_bad env1 v f p s (by omega)]

theorem connect_thread_invariant_witness :
    (connectAll okEnv [⟨5, 1, 2⟩, ⟨5, 3, 4⟩, ⟨260, 1, 1⟩, ⟨300, 1, 1⟩, ⟨260, 7, 7⟩]
      IntrState.init).threads.length = 2 ∧
    (connectAll okEnv [⟨5, 1, 2⟩, ⟨5, 3, 4⟩] IntrState.init).threads.length = 1 ∧
    (connectAll okEnv [⟨5, 1, 2⟩, ⟨6, 3, 4⟩] IntrState.init).threads.length = 2 :=
  have hx := connect_thread_invariant okEnv (fun _ => by simp [okEnv])
    (fun _ => by simp [okEnv]) (fun _ _ => rfl) IntrState.init (fun _ => rfl) rfl
  ⟨(hx.1 _).trans (by decide), hx.2.2.1 5 1 2 3 4 (by decide),
    hx.2.2.2.1 5 6 1 2 3 4 (by decide) (by decide) (by decide)⟩

/-- C18: for a vector below 288 whose table entry is empty, when the thread start
fails (`calloc` or `epicsThreadCreate` returns `NULL`) the result is
`S_dev_noMemory`, the controller is not called, the entry of the vector stays
empty and the other entries are unchanged, no thread is added and the lock is
released; and when the entry is set already or the thread start succeeds but
`toscaIntrConnectHandler` returns a value other than 0, the result is
`S_dev_vecInstlFail` with the lock released. -/
theorem connect_failures (env : IntrEnv) (vectorNumber function parameter : Nat)
    (st : IntrState) (hv : vectorNumber < 288) :
    (st.toscaDevLibInterruptThreads vectorNumber = 0 →
      (env.calloc st.callocs = 0 ∨ env.epicsThreadCreate st.threadCreates = 0) →
      (toscaDevLibConnectInterrupt env vectorNumber function parameter st).1 = S_dev_noMemory ∧
      (toscaDevLibConnectInterrupt env vectorNumber function parameter st).2.connectCalls
        = st.connectCalls ∧
      (toscaDevLibConnectInterrupt env vectorNumber function parameter
        st).2.toscaDevLibInterruptThreads vectorNumber = 0 ∧
      (∀ u, u ≠ vectorNumber →
        (toscaDevLibConnectInterrupt env vectorNumber function parameter
          st).2.toscaDevLibInterruptThreads u = st.toscaDevLibInterruptThreads u) ∧
      (toscaDevLibConnectInterrupt env vectorNumber function parameter st).2.threads
        = st.threads ∧
      (toscaDevLibConnectInterrupt env vectorNumber function parameter st).2.locks
        = st.locks + 1 ∧
      (toscaDevLibConnectInterrupt env vectorNumber function parameter st).2.unlocks
        = st.unlocks + 1) ∧
    ((st.toscaDevLibInterruptThreads vectorNumber ≠ 0 ∨
        (env.calloc st.callocs ≠ 0 ∧ env.epicsThreadCreate st.threadCreates ≠ 0)) →
      env.toscaIntrConnectHandler st.connectCalls.length
        ⟨if vectorNumber < 256 then env.INTR_VME_LVL_ANY
          else env.INTR_USER1_INTR (vectorNumber &&& 31), vectorNumber, function, parameter⟩
        ≠ 0 →
      (toscaDevLibConnectInterrupt env vectorNumber function parameter st).1
        = S_dev_vecInstlFail ∧
      (toscaDevLibConnectInterrupt env vectorNumber function parameter st).2.locks
        = st.locks + 1 ∧
      (toscaDevLibConnectInterrupt env vectorNumber function parameter st).2.unlocks
        = st.unlocks + 1) := by
  have htid := startThreadFor_tid env vectorNumber st.lock
  obtain ⟨s1, s2, s3, s4, -, s6, -⟩ := startThreadFor_state env vectorNumber st.lock
  have hc : st.lock.callocs = st.callocs := rfl
  have ht : st.lock.threadCreates = st.threadCreates := rfl
  rw [hc, ht] at htid
  constructor
  · intro hno hfail
    have h0 : (startThreadFor env vectorNumber st.lock).1 = 0 := by
      rw [htid]
      rcases hfail with hf | hf
      · rw [if_pos hf]
      · split
        · rfl
        · exact hf
    rw [connect_new env vectorNumber function parameter st hv hno, if_pos h0]
    refine ⟨rfl, s4, ?_, fun u hu => ?_, s6 h0, ?_, ?_⟩
    · show (if vectorNumber = vectorNumber then (startThreadFor env vectorNumber st.lock).1
        else (startThreadFor env vectorNumber st.lock).2.toscaDevLibInterruptThreads
          vectorNumber) = 0
      rw [if_pos rfl, h0]
    · show (if u = vectorNumber then (startThreadFor env vectorNumber st.lock).1
        else (startThreadFor env vectorNumber st.lock).2.toscaDevLibInterruptThreads u) = _
      rw [if_neg hu, s1]
      rfl
    · show (startThreadFor env vectorNumber st.lock).2.locks = st.locks + 1
      rw [s2]
      rfl
    · show (startThreadFor env vectorNumber st.lock).2.unlocks + 1 = st.unlocks + 1
      rw [s3]
      rfl
  · intro hcase hfail
    by_cases hex : st.toscaDevLibInterruptThreads vectorNumber = 0
    · have hok : env.calloc st.callocs ≠ 0 ∧ env.epicsThreadCreate st.threadCreates ≠ 0 := by
        rcases hcase with hc1 | hc1
        · exact absurd hex hc1
        · exact hc1
      have h0 : (startThreadFor env vectorNumber st.lock).1 ≠ 0 := by
        rw [htid, if_neg hok.1]
        exact hok.2
      rw [connect_new env vectorNumber function parameter st hv hex, if_neg h0]
      obtain ⟨-, -, c3, c4, -⟩ := connectHandler_state env vectorNumber function parameter
        ((startThreadFor env vectorNumber st.lock).2.setThread vectorNumber
          (startThreadFor env vectorNumber st.lock).1)
      rw [connectHandler_status, c3, c4]
      have hcc : ((startThreadFor env vectorNumber st.lock).2.setThread vectorNumber
          (startThreadFor env vectorNumber st.lock).1).connectCalls = st.connectCalls := s4
      rw [hcc, if_pos hfail]
      refine ⟨rfl, ?_, ?_⟩
      · show (startThreadFor env vectorNumber st.lock).2.locks = st.locks + 1
        rw [s2]
        rfl
      · show (startThreadFor env vectorNumber st.lock).2.unlocks + 1 = st.unlocks + 1
        rw [s3]
        rfl
    · rw [connect_existing env vectorNumber function parameter st hv hex]
      obtain ⟨-, -, c3, c4, -⟩ := connectHandler_state env vectorNumber function parameter st.lock
      rw [connectHandler_status, c3, c4]
      have hcc : st.lock.connectCalls = st.connectCalls := rfl
      rw [hcc, if_pos hfail]
      exact ⟨rfl, rfl, rfl⟩

theorem connect_failures_witness :
    (toscaDevLibConnectInterrupt noThreadEnv 5 1 2 IntrState.init).1 = S_dev_noMemory ∧
    (toscaDevLibConnectInterrupt noThreadEnv 5 1 2 IntrState.init).2.connectCalls = [] ∧
    (toscaDevLibConnectInterrupt noThreadEnv 5 1 2
      IntrState.init).2.toscaDevLibInterruptThreads 5 = 0 ∧
    (toscaDevLibConnectInterrupt noConnectEnv 5 1 2 IntrState.init).1 = S_dev_vecInstlFail ∧
    (toscaDevLibConnectInterrupt noConnectEnv 5 1 2 IntrState.init).2.unlocks = 0 + 1 :=
  have h1 := (connect_failures noThreadEnv 5 1 2 IntrState.init (by decide)).1 rfl
    (Or.inr rfl)
  have h2 := (connect_failures noConnectEnv 5 1 2 IntrState.init (by decide)).2
    (Or.inr ⟨by decide, by decide⟩) (by decide)
  ⟨h1.1, h1.2.1, h1.2.2.1, h2.1, h2.2.2⟩

/-! ## Loads and stores of elements -/

/-- The bytes of a value, weighted by their place, add up to the value truncated
to `W` bytes. -/
theorem sum_bytes (v W : Nat) :
    ((List.range W).map (fun k => byteOf v k * 256 ^ k)).sum = v % 256 ^ W := by
  induction W with
  | zero => simp [Nat.mod_one]
  | succ W ih =>
    rw [List.range_succ, List.map_append, List.sum_append, ih, Nat.mod_pow_succ]
    simp [byteOf, Nat.mul_comm]

/-- A load sees only the `W` bytes of its element. -/
theorem loadElem_congr (be : Bool) (W a : Nat) (m1 m2 : Mem)
    (hm : ∀ x, a ≤ x → x < a + W → m1 x = m2 x) :
    loadElem be W a m1 = loadElem be W a m2 := by
  unfold loadElem
  congr 1
  apply List.map_congr_left
  intro k hk
  have hk' : k < W := List.mem_range.mp hk
  rw [hm]
  · cases be <;> simp
  · cases be <;> simp <;> omega

/-- Loading the element just stored gives the stored value truncated to `W`
bytes. -/
theorem loadElem_storeElem (be : Bool) (W a v : Nat) (mem : Mem) :
    loadElem be W a (storeElem be W a v mem) = v % 256 ^ W := by
  rw [← sum_bytes]
  unfold loadElem
  congr 1
  apply List.map_congr_left
  intro k hk
  have hk' : k < W := List.mem_range.mp hk
  unfold storeElem
  cases be
  · have h1 : a ≤ a + k ∧ a + k < a + W := ⟨by omega, by omega⟩
    simp [h1, hk']
  · have h1 : a ≤ a + (W - 1 - k) ∧ a + (W - 1 - k) < a + W := ⟨by omega, by omega⟩
    have h2 : W - 1 - (a + (W - 1 - k) - a) = k := by omega
    simp only [if_true, h1, and_self, h2]

/-- A store changes no byte outside its element. -/
theorem storeElem_outside (be : Bool) (W a v : Nat) (mem : Mem) (x : Nat)
    (hx : x < a ∨ a + W ≤ x) : storeElem be W a v mem x = mem x := by
  unfold storeElem
  rw [if_neg (by omega)]

/-! ## The fill loop -/

/-- The fill loop changes no byte outside the elements `i, ..., i + n - 1`. -/
theorem fillLoop_outside (be : Bool) (W address : Nat) (increment : Int) :
    ∀ (n i pattern : Nat) (mem : Mem) (x : Nat),
      (x < address + W * i ∨ address + W * (i + n) ≤ x) →
      fillLoop be W address increment n i pattern mem x = mem x := by
  intro n
  induction n with
  | zero =>
    intro i pattern mem x _
    rfl
  | succ n ih =>
    intro i pattern mem x hx
    show fillLoop be W address increment n (i + 1) (nextPattern pattern increment)
      (storeElem be W (address + W * i) pattern mem) x = mem x
    have e1 : W * (i + 1) = W * i + W := by rw [Nat.mul_add, Nat.mul_one]
    have e2 : W * (i + 1 + n) = W * (i + (n + 1)) := by
      congr 1
      omega
    have e3 : W * i ≤ W * (i + (n + 1)) := Nat.mul_le_mul_left W (by omega)
    have e4 : W * (i + 1) ≤ W * (i + (n + 1)) := Nat.mul_le_mul_left W (by omega)
    rw [ih (i + 1) _ _ x (by rw [e2]; omega), storeElem_outside be W _ pattern mem x (by omega)]

/-- The pattern after `k` increments. -/
theorem nextPattern_iterate (increment : Int) :
    ∀ (k : Nat) (p : Int),
      (nextPattern · increment)^[k] ((p % 2 ^ 32).toNat)
        = ((p + k * increment) % 2 ^ 32).toNat := by
  intro k
  induction k with
  | zero =>
    intro p
    simp
  | succ k ih =>
    intro p
    rw [Function.iterate_succ_apply]
    have hn : nextPattern ((p % 2 ^ 32).toNat) increment = ((p + increment) % 2 ^ 32).toNat := by
      unfold nextPattern
      rw [Int.toNat_of_nonneg (Int.emod_nonneg p (by norm_num)), Int.emod_add_emod]
    rw [hn, ih (p + increment)]
    congr 2
    push_cast
    ring

/-- After the fill loop, element `i + k` holds the pattern after `k` increments,
truncated to `W` bytes. -/
theorem fillLoop_elem (be : Bool) (W address : Nat) (increment : Int) :
    ∀ (n i pattern : Nat) (mem : Mem) (k : Nat), k < n →
      loadElem be W (address + W * (i + k)) (fillLoop be W address increment n i pattern mem)
        = ((nextPattern · increment)^[k] pattern) % 256 ^ W := by
  intro n
  induction n with
  | zero =>
    intro i pattern mem k hk
    exact absurd hk (Nat.not_lt_zero k)
  | succ n ih =>
    intro i pattern mem k hk
    show loadElem be W (address + W * (i + k))
      (fillLoop be W address increment n (i + 1) (nextPattern pattern increment)
        (storeElem be W (address + W * i) pattern mem)) = _
    cases k with
    | zero =>
      rw [loadElem_congr be W (address + W * (i + 0)) _
        (storeElem be W (address + W * i) pattern mem), Nat.add_zero, loadElem_storeElem]
      · rfl
      · intro x hx1 hx2
        apply fillLoop_outside
        left
        have e1 : W * (i + 1) = W * i + W := by rw [Nat.mul_add, Nat.mul_one]
        rw [Nat.add_zero] at hx2
        omega
    | succ k =>
      have e : i + (k + 1) = i + 1 + k := by omega
      rw [e, ih (i + 1) _ _ k (by omega), Function.iterate_succ_apply]

/-! ## Properties of `memfillFunc` -/

theorem memfillFunc_width (be : Bool) (address : Nat) (patternArg : Int) (size : Nat)
    (increment : Int) (mem : Mem) (W : Nat) (haddr : address ≠ 0)
    (hW : W = 1 ∨ W = 2 ∨ W = 4) :
    memfillFunc be address patternArg size (W : Int) increment mem =
      (UtilsOutcome.done,
        fillLoop be W address increment (size / W) 0 ((patternArg % 2 ^ 32).toNat) mem) := by
  unfold memfillFunc
  rw [if_neg haddr]
  rcases hW with rfl | rfl | rfl
  · simp
  · simp [Nat.shiftRight_eq_div_pow]
  · simp [Nat.shiftRight_eq_div_pow]

/-- C19: for a mapped target and a width `W` of 1, 2 or 4, with `P` the 32-bit
pattern and `s` the increment, after the fill of a window of at least `N * W`
bytes the element `i < N` of the window equals `(P + i * s) mod 2^32` truncated
to `W` bytes; with `s = 0` every such element equals `P` truncated to `W`
bytes. -/
theorem memfill_elements (be : Bool) (address : Nat) (patternArg : Int) (size : Nat)
    (increment : Int) (mem : Mem) (W N i : Nat) (haddr : address ≠ 0)
    (hW : W = 1 ∨ W = 2 ∨ W = 4) (hN : N * W ≤ size) (hi : i < N) :
    (memfillFunc be address patternArg size (W : Int) increment mem).1 = UtilsOutcome.done ∧
    loadElem be W (address + W * i)
        (memfillFunc be address patternArg size (W : Int) increment mem).2
      = ((((patternArg % 2 ^ 32).toNat : Int) + i * increment) % 2 ^ 32).toNat % 256 ^ W ∧
    (increment = 0 →
      loadElem be W (address + W * i)
          (memfillFunc be address patternArg size (W : Int) increment mem).2
        = (patternArg % 2 ^ 32).toNat % 256 ^ W) := by
  have hWpos : 0 < W := by omega
  have hlt : i < size / W := by
    have : N ≤ size / W := (Nat.le_div_iff_mul_le hWpos).mpr hN
    omega
  have hmain : loadElem be W (address + W * i)
      (memfillFunc be address patternArg size (W : Int) increment mem).2
      = ((((patternArg % 2 ^ 32).toNat : Int) + i * increment) % 2 ^ 32).toNat % 256 ^ W := by
    rw [memfillFunc_width be address patternArg size increment mem W haddr hW]
    have h := fillLoop_elem be W address increment (size / W) 0 ((patternArg % 2 ^ 32).toNat)
      mem i hlt
    rw [Nat.zero_add] at h
    show loadElem be W (address + W * i)
      (fillLoop be W address increment (size / W) 0 ((patternArg % 2 ^ 32).toNat) mem) = _
    rw [h, nextPattern_iterate,
      Int.toNat_of_nonneg (Int.emod_nonneg patternArg (by norm_num)), Int.emod_add_emod]
  refine ⟨?_, hmain, fun h0 => ?_⟩
  · rw [memfillFunc_width be address patternArg size increment mem W haddr hW]
  · rw [hmain, h0, Int.mul_zero, Int.add_zero,
      Int.toNat_of_nonneg (Int.emod_nonneg patternArg (by norm_num)), Int.emod_emod_of_dvd _
        (Int.dvd_refl _)]

theorem memfill_elements_witness :
    loadElem true 2 (0x100 + 2 * 3) (memfillFunc true 0x100 0x11223344 8 (2 : Nat) 1
      (fun _ => 0xee)).2
      = ((((0x11223344 % 2 ^ 32 : Int).toNat : Int) + (3 : Nat) * 1) % 2 ^ 32).toNat % 256 ^ 2 :=
  (memfill_elements true 0x100 0x11223344 8 1 (fun _ => 0xee) 2 4 3 (by decide) (by decide)
    (by decide) (by decide)).2.1

/-- C20 (counterexample): the width 0 is none of 1, 2, 4, yet the fill of a
one-byte window with width 0 ends without `Illegal width` and writes the byte. -/
theorem memfill_width_zero_fills :
    (0 : Int) ≠ 1 ∧ (0 : Int) ≠ 2 ∧ (0 : Int) ≠ 4 ∧
    (memfillFunc false 0x100 0xab 1 0 0 (fun _ => 0)).1 = UtilsOutcome.done ∧
    (memfillFunc false 0x100 0xab 1 0 0 (fun _ => 0)).1 ≠ UtilsOutcome.illegalWidth ∧
    (memfillFunc false 0x100 0xab 1 0 0 (fun _ => 0)).2 0x100 = 0xab ∧
    (fun _ => 0 : Mem) 0x100 ≠ 0xab := by
  decide

/-- C20 (amended): for a mapped target, every width other than 0, 1, 2 and 4 makes
the fill report `Illegal width` and leave the memory as it is; the width 0 fills
byte by byte like the width 1. -/
theorem memfill_illegal_width (be : Bool) (address : Nat) (patternArg : Int) (size : Nat)
    (width increment : Int) (mem : Mem) (haddr : address ≠ 0) :
    (width ≠ 0 → width ≠ 1 → width ≠ 2 → width ≠ 4 →
      memfillFunc be address patternArg size width increment mem
        = (UtilsOutcome.illegalWidth, mem)) ∧
    memfillFunc be address patternArg size 0 increment mem
      = memfillFunc be address patternArg size 1 increment mem := by
  constructor
  · intro h0 h1 h2 h4
    unfold memfillFunc
    rw [if_neg haddr, if_neg (by simp [h0, h1]), if_neg h2, if_neg h4]
  · unfold memfillFunc
    simp

theorem memfill_illegal_width_witness :
    memfillFunc true 0x100 0xab 16 8 1 (fun _ => 0xee)
      = (UtilsOutcome.illegalWidth, fun _ => 0xee) :=
  (memfill_illegal_width true 0x100 0xab 16 8 1 (fun _ => 0xee) (by decide)).1
    (by decide) (by decide) (by decide) (by decide)

/-! ## Window coverage of `toscaDevLibMapAddr` -/

/-- C23 (evaluation at the failing input): the A24 request with base `0` and size
16 MiB returns `S_dev_success` with the allocator asked for the window
`(0, 0x400000)` only, so the end `0x1000000` of the requested range lies beyond
the end `0x400000` of the window. -/
theorem mapAddr_A24_whole_space_not_covered :
    (toscaDevLibMapAddr linuxVme 64 (fun _ => 0x7f000000) atVMEA24 0 0 0x1000000).status
      = S_dev_success ∧
    (toscaDevLibMapAddr linuxVme 64 (fun _ => 0x7f000000) atVMEA24 0 0 0x1000000).calls
      = [⟨0x1002, 0, 0x400000⟩] ∧
    ¬ (0 + 0x1000000 ≤ 0 + 0x400000) := by
  decide

/-! ## Properties of `toscaElbFd` -/

/-- C24 (evaluation at the failing input): the address `0x40` is not rejected
with `EINVAL`, and since it is compared with decimal `40` the slot index is
`0x40 >> 2 = 16`, outside the array `fd[11]`, for every content of the cache
and every `sysfsOpen`. -/
theorem toscaElbFd_bmrctl_out_of_bounds :
    ¬ (16 < 11) ∧
    ∀ (sysfsOpen : String → Int) (fd : List Int),
      toscaElbFd sysfsOpen 0x40 fd = ElbFd.outOfBounds 16 ∧
      toscaElbFd sysfsOpen 0x40 fd ≠ ElbFd.einval := by
  refine ⟨by decide, fun sysfsOpen fd => ?_⟩
  have h : toscaElbFd sysfsOpen 0x40 fd = ElbFd.outOfBounds 16 := by
    have e : (0x40 : Nat) &&& 0xfffffffc = 0x40 := by decide
    have e2 : (0x40 : Nat) >>> 2 = 16 := by decide
    unfold toscaElbFd
    simp [e, e2]
  rw [h]
  exact ⟨rfl, by simp⟩

/-! ## Evaluations of `memcompFunc` -/

/-- C22 (evaluation at the failing input): the two buffers of 3 bytes at `0x100`
and `0x200` are equal, yet the comparison with width 2 reports a mismatch at
offset 2, because its second element reaches the bytes at `0x103` and `0x203`
behind the buffers. -/
theorem memcomp_odd_size_reads_behind :
    (∀ k, k < 3 → rampMem (0x100 + k) = rampMem (0x200 + k)) ∧
    rampMem 0x103 ≠ rampMem 0x203 ∧
    memcompFunc false 0x100 0x200 3 2 rampMem = CompOutcome.mismatch 2 ∧
    memcompFunc true 0x100 0x200 3 2 rampMem = CompOutcome.mismatch 2 ∧
    memcompFunc false 0x100 0x200 3 2 rampMem ≠ CompOutcome.ok := by
  decide

/-- C25 (evaluation at the failing input): copying 3 bytes with width 2 from
`0x100` to `0x310` transfers one element (`3 / 2 = 1`), and the comparison with
the same arguments examines two elements and reports a mismatch at offset 2. -/
theorem memcopy_memcomp_odd_size_mismatch :
    (memcopyFunc false 0x100 0x310 3 2 rampMem).1 = UtilsOutcome.done ∧
    (memcopyFunc false 0x100 0x310 3 2 rampMem).2 0x312 = rampMem 0x312 ∧
    memcompFunc false 0x100 0x310 3 2 (memcopyFunc false 0x100 0x310 3 2 rampMem).2
      = CompOutcome.mismatch 2 ∧
    memcompFunc false 0x100 0x310 3 2 (memcopyFunc false 0x100 0x310 3 2 rampMem).2
      ≠ CompOutcome.ok := by
  decide

/-! ## Bytes of loaded and swapped values -/

/-- A sum of digits below 256, weighted by their place, is below `256 ^ W`. -/
theorem sum_digits_lt (d : Nat → Nat) (W : Nat) (hd : ∀ k, k < W → d k < 256) :
    ((List.range W).map (fun k => d k * 256 ^ k)).sum < 256 ^ W := by
  induction W with
  | zero => simp
  | succ W ih =>
    rw [List.range_succ, List.map_append, List.sum_append]
    have h1 := ih (fun k hk => hd k (by omega))
    have h2 := hd W (by omega)
    simp only [List.map_cons, List.map_nil, List.sum_cons, List.sum_nil, Nat.add_zero]
    have h3 : d W * 256 ^ W ≤ 255 * 256 ^ W := Nat.mul_le_mul_right _ (by omega)
    rw [Nat.pow_succ]
    omega

/-- Byte `j` of a sum of digits below 256 is the digit `j`. -/
theorem byteOf_sum_digits (d : Nat → Nat) (W : Nat) (hd : ∀ k, k < W → d k < 256) (j : Nat)
    (hj : j < W) :
    byteOf (((List.range W).map (fun k => d k * 256 ^ k)).sum) j = d j := by
  induction W with
  | zero => exact absurd hj (Nat.not_lt_zero j)
  | succ W ih =>
    rw [List.range_succ, List.map_append, List.sum_append]
    simp only [List.map_cons, List.map_nil, List.sum_cons, List.sum_nil, Nat.add_zero]
    have hlt := sum_digits_lt d W (fun k hk => hd k (by omega))
    have hpos : 0 < 256 ^ W := Nat.pow_pos (by norm_num)
    by_cases hjW : j = W
    · subst hjW
      unfold byteOf
      rw [Nat.add_mul_div_right _ _ hpos, Nat.div_eq_of_lt hlt, Nat.zero_add,
        Nat.mod_eq_of_lt (hd j (by omega))]
    · have hj' : j < W := by omega
      have ihj := ih (fun k hk => hd k (by omega)) hj'
      unfold byteOf at ihj ⊢
      obtain ⟨m, rfl⟩ : ∃ m, W = j + 1 + m := ⟨W - (j + 1), by omega⟩
      have e : d (j + 1 + m) * 256 ^ (j + 1 + m) = 256 ^ j * (256 * (d (j + 1 + m) * 256 ^ m)) := by
        rw [Nat.pow_add, Nat.pow_succ]
        ring
      rw [e, Nat.add_mul_div_left _ _ (Nat.pow_pos (by norm_num)), Nat.add_mul_mod_self_left]
      exact ihj

theorem byteOf_lt (v k : Nat) : byteOf v k < 256 := by
  unfold byteOf
  exact Nat.mod_lt _ (by norm_num)

/-- Byte `j` of a swapped value is byte `W - 1 - j` of the value. -/
theorem byteOf_bswap (W v j : Nat) (hj : j < W) :
    byteOf (bswap W v) j = byteOf v (W - 1 - j) := by
  unfold bswap
  exact byteOf_sum_digits (fun k => byteOf v (W - 1 - k)) W (fun k _ => byteOf_lt v _) j hj

/-- Byte `k` of a loaded element is the byte of the memory at the place that the
byte order of the host gives to it. -/
theorem byteOf_loadElem (be : Bool) (W a : Nat) (mem : Mem)
    (hb : ∀ x, a ≤ x → x < a + W → mem x < 256) (k : Nat) (hk : k < W) :
    byteOf (loadElem be W a mem) k = mem (a + (if be then W - 1 - k else k)) := by
  unfold loadElem
  refine byteOf_sum_digits (fun k => mem (a + (if be then W - 1 - k else k))) W
    (fun j hj => ?_) k hk
  apply hb
  · omega
  · cases be
    · simp
      omega
    · simp
      omega

/-- Copying one element with byte swap reverses the bytes of the element. -/
theorem swapStore_byte (be : Bool) (W s d : Nat) (mem : Mem)
    (hb : ∀ x, s ≤ x → x < s + W → mem x < 256) (x : Nat) :
    storeElem be W d (bswap W (loadElem be W s mem)) mem x =
      if d ≤ x ∧ x < d + W then mem (s + (W - 1 - (x - d))) else mem x := by
  unfold storeElem
  by_cases hx : d ≤ x ∧ x < d + W
  · rw [if_pos hx, if_pos hx]
    cases be
    · have h1 : x - d < W := by omega
      simp only [Bool.false_eq_true, if_false]
      rw [byteOf_bswap W _ _ h1, byteOf_loadElem false W s mem hb _ (by omega)]
      simp
    · have h1 : W - 1 - (x - d) < W := by omega
      simp only [if_true]
      rw [byteOf_bswap W _ _ h1, byteOf_loadElem true W s mem hb _ (by omega)]
      simp only [if_true]
      congr 2
      omega
  · rw [if_neg hx, if_neg hx]

/-! ## The copy loop -/

/-- The copy loop changes no byte outside the destination elements
`i, ..., i + n - 1`. -/
theorem copyLoop_outside (be : Bool) (W : Nat) (swap : Bool) (s d : Nat) :
    ∀ (n i : Nat) (mem : Mem) (x : Nat),
      (x < d + W * i ∨ d + W * (i + n) ≤ x) →
      copyLoop be W swap s d n i mem x = mem x := by
  intro n
  induction n with
  | zero =>
    intro i mem x _
    rfl
  | succ n ih =>
    intro i mem x hx
    show copyLoop be W swap s d n (i + 1)
      (storeElem be W (d + W * i)
        (if swap then bswap W (loadElem be W (s + W * i) mem)
          else loadElem be W (s + W * i) mem) mem) x = mem x
    have e1 : W * (i + 1) = W * i + W := by rw [Nat.mul_add, Nat.mul_one]
    have e2 : W * (i + 1 + n) = W * (i + (n + 1)) := by
      congr 1
      omega
    have e3 : W * i ≤ W * (i + (n + 1)) := Nat.mul_le_mul_left W (by omega)
    have e4 : W * (i + 1) ≤ W * (i + (n + 1)) := Nat.mul_le_mul_left W (by omega)
    rw [ih (i + 1) _ x (by rw [e2]; omega), storeElem_outside be W _ _ mem x (by omega)]

/-- After the copy loop with byte swap between regions that do not overlap, byte
`o` of destination element `i + j` is byte `W - 1 - o` of source element
`i + j`. -/
theorem copyLoop_swap_elem (be : Bool) (W s d : Nat) :
    ∀ (n i : Nat) (mem : Mem),
      (s + W * (i + n) ≤ d ∨ d + W * (i + n) ≤ s) →
      (∀ x, s ≤ x → x < s + W * (i + n) → mem x < 256) →
      ∀ j o, j < n → o < W →
        copyLoop be W true s d n i mem (d + W * (i + j) + o)
          = mem (s + W * (i + j) + (W - 1 - o)) := by
  intro n
  induction n with
  | zero =>
    intro i mem _ _ j o hj _
    exact absurd hj (Nat.not_lt_zero j)
  | succ n ih =>
    intro i mem hdis hb j o hj ho
    show copyLoop be W true s d n (i + 1)
      (storeElem be W (d + W * i) (bswap W (loadElem be W (s + W * i) mem)) mem)
      (d + W * (i + j) + o) = _
    have e1 : W * (i + 1) = W * i + W := by rw [Nat.mul_add, Nat.mul_one]
    have e2 : W * (i + 1 + n) = W * (i + (n + 1)) := by
      congr 1
      omega
    have e3 : W * (i + 1) ≤ W * (i + (n + 1)) := Nat.mul_le_mul_left W (by omega)
    have hbi : ∀ x, s + W * i ≤ x → x < s + W * i + W → mem x < 256 :=
      fun x h1 h2 => hb x (by omega) (by omega)
    cases j with
    | zero =>
      rw [copyLoop_outside be W true s d n (i + 1) _ _ (by rw [Nat.add_zero]; omega),
        swapStore_byte be W (s + W * i) (d + W * i) mem hbi, Nat.add_zero,
        if_pos ⟨by omega, by omega⟩]
      congr 2
      omega
    | succ j =>
      have e4 : i + (j + 1) = i + 1 + j := by omega
      have e5 : W * (i + 1 + j) ≤ W * (i + (n + 1)) := Nat.mul_le_mul_left W (by omega)
      have e6 : W * (i + 1) ≤ W * (i + 1 + j) := Nat.mul_le_mul_left W (by omega)
      have e7 : W * (i + 1 + j) + W ≤ W * (i + (n + 1)) := by
        have : W * (i + 1 + j + 1) ≤ W * (i + (n + 1)) := Nat.mul_le_mul_left W (by omega)
        rw [Nat.mul_add, Nat.mul_one] at this
        exact this
      have hsrc : ∀ x, s ≤ x → x < s + W * (i + (n + 1)) →
          storeElem be W (d + W * i) (bswap W (loadElem be W (s + W * i) mem)) mem x = mem x :=
        fun x h1 h2 => storeElem_outside be W _ _ mem x (by omega)
      rw [e4, ih (i + 1) _ (by rw [e2]; exact hdis)
        (fun x h1 h2 => by
          rw [hsrc x h1 (by rw [← e2]; exact h2)]
          exact hb x h1 (by rw [← e2]; exact h2))
        j o (by omega) ho]
      exact hsrc _ (by omega) (by omega)

/-- Every byte of the first `W * n` bytes of a region is byte `o < W` of an
element `j < n`. -/
theorem elem_decompose (W n a x : Nat) (hW : 0 < W) (h1 : a ≤ x) (h2 : x < a + W * n) :
    ∃ j o, j < n ∧ o < W ∧ x = a + W * (0 + j) + o := by
  refine ⟨(x - a) / W, (x - a) % W, ?_, Nat.mod_lt _ hW, ?_⟩
  · rw [Nat.div_lt_iff_lt_mul hW, Nat.mul_comm]
    omega
  · have := Nat.div_add_mod (x - a) W
    rw [Nat.zero_add]
    omega

/-- Two copy loops with byte swap, there and back between regions that do not
overlap, restore the bytes of the first region. -/
theorem copyLoop_round_trip (be : Bool) (W A B n : Nat) (mem : Mem) (hW : 0 < W)
    (hdis : A + W * n ≤ B ∨ B + W * n ≤ A)
    (hb : ∀ x, A ≤ x → x < A + W * n → mem x < 256) :
    (∀ j o, j < n → o < W →
      copyLoop be W true A B n 0 mem (B + W * j + o) = mem (A + W * j + (W - 1 - o))) ∧
    (∀ x, A ≤ x → x < A + W * n →
      copyLoop be W true B A n 0 (copyLoop be W true A B n 0 mem) x = mem x) := by
  have hfst : ∀ j o, j < n → o < W →
      copyLoop be W true A B n 0 mem (B + W * (0 + j) + o)
        = mem (A + W * (0 + j) + (W - 1 - o)) :=
    copyLoop_swap_elem be W A B n 0 mem (by rw [Nat.zero_add]; exact hdis)
      (fun x h1 h2 => hb x h1 (by rw [Nat.zero_add] at h2; exact h2))
  have hle : ∀ j, j < n → W * (0 + j) + W ≤ W * n := by
    intro j hj
    have : W * (j + 1) ≤ W * n := Nat.mul_le_mul_left W (by omega)
    rw [Nat.mul_add, Nat.mul_one] at this
    rw [Nat.zero_add]
    exact this
  have hb1 : ∀ y, B ≤ y → y < B + W * (0 + n) → copyLoop be W true A B n 0 mem y < 256 := by
    intro y h1 h2
    rw [Nat.zero_add] at h2
    obtain ⟨j, o, hj, ho, rfl⟩ := elem_decompose W n B y hW h1 h2
    rw [hfst j o hj ho]
    have := hle j hj
    exact hb _ (by omega) (by omega)
  have hsnd := copyLoop_swap_elem be W B A n 0 (copyLoop be W true A B n 0 mem)
    (by rw [Nat.zero_add]; exact hdis.symm) hb1
  constructor
  · intro j o hj ho
    have := hfst j o hj ho
    rw [Nat.zero_add] at this
    exact this
  · intro x h1 h2
    obtain ⟨j, o, hj, ho, rfl⟩ := elem_decompose W n A x hW h1 h2
    rw [hsnd j o hj ho, hfst j (W - 1 - o) hj (by omega)]
    congr 2
    omega

/-! ## Properties of `memcopyFunc` -/

theorem memcopyFunc_swap (be : Bool) (s d N W : Nat) (mem : Mem) (hs : s ≠ 0) (hd : d ≠ 0)
    (hW : W = 2 ∨ W = 4 ∨ W = 8) :
    memcopyFunc be s d N (-(W : Int)) mem
      = (UtilsOutcome.done, copyLoop be W true s d (N / W) 0 mem) := by
  unfold memcopyFunc
  rw [if_neg hs, if_neg hd]
  rcases hW with rfl | rfl | rfl <;> simp

/-- C21: for `W` of 2, 4 or 8, a size `N` and two mapped buffers `A` and `B` of
`N` bytes that do not overlap, copying `A` to `B` with width `-W` puts byte
`W - 1 - o` of each element of `A` at place `o` of the element of `B`, and
copying `B` back to `A` with width `-W` leaves every one of the `N` bytes of `A`
equal to its original value. -/
theorem memcopy_swap_round_trip (be : Bool) (A B N W : Nat) (mem : Mem)
    (hA : A ≠ 0) (hB : B ≠ 0) (hW : W = 2 ∨ W = 4 ∨ W = 8)
    (hdis : A + N ≤ B ∨ B + N ≤ A)
    (hbytes : ∀ x, A ≤ x → x < A + N → mem x < 256) :
    (memcopyFunc be A B N (-(W : Int)) mem).1 = UtilsOutcome.done ∧
    (memcopyFunc be B A N (-(W : Int)) (memcopyFunc be A B N (-(W : Int)) mem).2).1
      = UtilsOutcome.done ∧
    (∀ j o, j < N / W → o < W →
      (memcopyFunc be A B N (-(W : Int)) mem).2 (B + W * j + o)
        = mem (A + W * j + (W - 1 - o))) ∧
    (∀ x, A ≤ x → x < A + N →
      (memcopyFunc be B A N (-(W : Int)) (memcopyFunc be A B N (-(W : Int)) mem).2).2 x
        = mem x) := by
  have hWpos : 0 < W := by omega
  have hle : W * (N / W) ≤ N := Nat.mul_div_le N W
  rw [memcopyFunc_swap be A B N W mem hA hB hW]
  rw [memcopyFunc_swap be B A N W _ hB hA hW]
  obtain ⟨h1, h2⟩ := copyLoop_round_trip be W A B (N / W) mem hWpos (by omega)
    (fun x hx1 hx2 => hbytes x hx1 (by omega))
  refine ⟨rfl, rfl, h1, fun x hx1 hx2 => ?_⟩
  by_cases hin : x < A + W * (N / W)
  · exact h2 x hx1 hin
  · show copyLoop be W true B A (N / W) 0 (copyLoop be W true A B (N / W) 0 mem) x = mem x
    rw [copyLoop_outside be W true B A (N / W) 0 _ x (by rw [Nat.zero_add]; omega),
      copyLoop_outside be W true A B (N / W) 0 mem x (by rw [Nat.zero_add]; omega)]

theorem memcopy_swap_round_trip_witness :
    (memcopyFunc true 0x100 0x310 7 (-((4 : Nat) : Int)) rampMem).2 0x310 = rampMem 0x103 ∧
    ∀ x, 0x100 ≤ x → x < 0x100 + 7 →
      (memcopyFunc true 0x310 0x100 7 (-((4 : Nat) : Int))
        (memcopyFunc true 0x100 0x310 7 (-((4 : Nat) : Int)) rampMem).2).2 x = rampMem x :=
  have hx := memcopy_swap_round_trip true 0x100 0x310 7 4 rampMem (by decide) (by decide)
    (by decide) (by decide) (fun x _ _ => by
      unfold rampMem
      split
      · decide
      · exact Nat.mod_lt _ (by decide))
  ⟨hx.2.2.1 0 0 (by decide) (by decide), hx.2.2.2⟩

/-! ## The compare loop -/

theorem compLoop_succ (be : Bool) (W : Nat) (swap : Bool) (s d size : Nat) (mem : Mem)
    (fuel i : Nat) :
    compLoop be W swap s d size mem (fuel + 1) i =
      if i < size then
        if loadElem be W (d + W * (i / W)) mem ≠
            (if swap then bswap W (loadElem be W (s + W * (i / W)) mem)
              else loadElem be W (s + W * (i / W)) mem) then i
        else compLoop be W swap s d size mem fuel (i + W)
      else i := rfl

/-- The compare loop ends either at or behind `size`, or at an offset below
`size` at which the two elements differ: with enough iterations allowed, a
reported mismatch is never due to the bound on the iterations. -/
theorem compLoop_sound (be : Bool) (W : Nat) (swap : Bool) (s d size : Nat) (mem : Mem)
    (hW : 0 < W) :
    ∀ (fuel i : Nat), size ≤ i + fuel →
      i ≤ compLoop be W swap s d size mem fuel i ∧
      (compLoop be W swap s d size mem fuel i < size →
        loadElem be W (d + W * (compLoop be W swap s d size mem fuel i / W)) mem ≠
          (if swap then
            bswap W (loadElem be W (s + W * (compLoop be W swap s d size mem fuel i / W)) mem)
          else loadElem be W (s + W * (compLoop be W swap s d size mem fuel i / W)) mem)) := by
  intro fuel
  induction fuel with
  | zero =>
    intro i hi
    exact ⟨Nat.le_refl _, fun hlt => absurd hlt (by show ¬ i < size; omega)⟩
  | succ fuel ih =>
    intro i hi
    rw [compLoop_succ]
    by_cases h1 : i < size
    · rw [if_pos h1]
      by_cases h2 : loadElem be W (d + W * (i / W)) mem ≠
          (if swap then bswap W (loadElem be W (s + W * (i / W)) mem)
            else loadElem be W (s + W * (i / W)) mem)
      · rw [if_pos h2]
        exact ⟨Nat.le_refl _, fun _ => h2⟩
      · rw [if_neg h2]
        obtain ⟨h3, h4⟩ := ih (i + W) (by omega)
        exact ⟨by omega, h4⟩
    · rw [if_neg h1]
      exact ⟨Nat.le_refl _, fun hlt => absurd hlt h1⟩

/-- Allowing more iterations than `size - i` does not change the result of the
compare loop. -/
theorem compLoop_fuel (be : Bool) (W : Nat) (swap : Bool) (s d size : Nat) (mem : Mem)
    (hW : 0 < W) :
    ∀ (fuel i extra : Nat), size ≤ i + fuel →
      compLoop be W swap s d size mem (fuel + extra) i
        = compLoop be W swap s d size mem fuel i := by
  intro fuel
  induction fuel with
  | zero =>
    intro i extra hi
    cases extra with
    | zero => rfl
    | succ e =>
      rw [Nat.zero_add, compLoop_succ, if_neg (by omega)]
      rfl
  | succ fuel ih =>
    intro i extra hi
    have e : fuel + 1 + extra = (fuel + extra) + 1 := by omega
    rw [e, compLoop_succ, compLoop_succ]
    by_cases h1 : i < size
    · rw [if_pos h1, if_pos h1, ih (i + W) extra (by omega)]
    · rw [if_neg h1, if_neg h1]

/-- Two elements of byte-valued memory load the same value exactly when they
agree byte by byte. -/
theorem loadElem_eq_iff (be : Bool) (W a b : Nat) (mem : Mem)
    (ha : ∀ x, a ≤ x → x < a + W → mem x < 256)
    (hb : ∀ x, b ≤ x → x < b + W → mem x < 256) :
    loadElem be W a mem = loadElem be W b mem ↔ ∀ o, o < W → mem (a + o) = mem (b + o) := by
  constructor
  · intro heq o ho
    have hk : (if be then W - 1 - o else o) < W := by
      cases be
      · simpa using ho
      · simp only [if_true]
        omega
    have h1 := byteOf_loadElem be W a mem ha _ hk
    have h2 := byteOf_loadElem be W b mem hb _ hk
    rw [heq, h2] at h1
    cases be
    · simpa using h1.symm
    · simp only [if_true] at h1
      have e : W - 1 - (W - 1 - o) = o := by omega
      rw [e] at h1
      exact h1.symm
  · intro hbytes
    unfold loadElem
    congr 1
    apply List.map_congr_left
    intro k hk
    have hk' : k < W := List.mem_range.mp hk
    rw [hbytes]
    cases be
    · simpa using hk'
    · simp only [if_true]
      omega

/-- The compare loop passes `m` elements that compare equal. -/
theorem compLoop_skip (be : Bool) (W : Nat) (swap : Bool) (s d size : Nat) (mem : Mem)
    (hW : 0 < W) :
    ∀ (m fuel j : Nat),
      (∀ j', j ≤ j' → j' < j + m →
        W * j' < size ∧
        loadElem be W (d + W * j') mem =
          (if swap then bswap W (loadElem be W (s + W * j') mem)
            else loadElem be W (s + W * j') mem)) →
      compLoop be W swap s d size mem (fuel + m) (W * j)
        = compLoop be W swap s d size mem fuel (W * (j + m)) := by
  intro m
  induction m with
  | zero =>
    intro fuel j _
    rfl
  | succ m ih =>
    intro fuel j heq
    obtain ⟨h1, h2⟩ := heq j (Nat.le_refl _) (by omega)
    have e : fuel + (m + 1) = (fuel + m) + 1 := by omega
    have e2 : W * j + W = W * (j + 1) := by rw [Nat.mul_add, Nat.mul_one]
    have e3 : j + (m + 1) = j + 1 + m := by omega
    rw [e, compLoop_succ, if_pos h1, Nat.mul_div_cancel_left j hW,
      if_neg (fun hne => hne h2), e2, e3]
    exact ih fuel (j + 1) (fun j' hj1 hj2 => heq j' (by omega) (by omega))

/-! ## `memcompFunc` on whole elements -/

theorem memcompFunc_width (be : Bool) (s d N W : Nat) (mem : Mem) (hs : s ≠ 0) (hd : d ≠ 0)
    (hW : W = 1 ∨ W = 2 ∨ W = 4 ∨ W = 8) :
    memcompFunc be s d N (W : Int) mem
      = compReport N (compLoop be W false s d N mem N 0) := by
  unfold memcompFunc
  rw [if_neg hs, if_neg hd]
  rcases hW with rfl | rfl | rfl | rfl <;> simp

/-- For a size that is a multiple of the width `W` (1, 2, 4 or 8) and two mapped
buffers of byte-valued memory: when the buffers are equal `memcompFunc` reports
`OK`, and when `K` is the smallest offset at which they differ it reports the
mismatch offset `W * (K / W)`. -/
theorem memcomp_whole_elements (be : Bool) (s d n W : Nat) (mem : Mem)
    (hs : s ≠ 0) (hd : d ≠ 0) (hW : W = 1 ∨ W = 2 ∨ W = 4 ∨ W = 8)
    (hbs : ∀ x, s ≤ x → x < s + W * n → mem x < 256)
    (hbd : ∀ x, d ≤ x → x < d + W * n → mem x < 256) :
    ((∀ k, k < W * n → mem (d + k) = mem (s + k)) →
      memcompFunc be s d (W * n) (W : Int) mem = CompOutcome.ok) ∧
    (∀ K, K < W * n → mem (d + K) ≠ mem (s + K) →
      (∀ k, k < K → mem (d + k) = mem (s + k)) →
      memcompFunc be s d (W * n) (W : Int) mem = CompOutcome.mismatch (W * (K / W))) := by
  have hWpos : 0 < W := by omega
  have helem : ∀ j, j < n → W * j + W ≤ W * n := by
    intro j hj
    have : W * (j + 1) ≤ W * n := Nat.mul_le_mul_left W (by omega)
    rw [Nat.mul_add, Nat.mul_one] at this
    exact this
  have hiff : ∀ j, j < n →
      (loadElem be W (d + W * j) mem = loadElem be W (s + W * j) mem ↔
        ∀ o, o < W → mem (d + W * j + o) = mem (s + W * j + o)) := by
    intro j hj
    have := helem j hj
    exact loadElem_eq_iff be W (d + W * j) (s + W * j) mem
      (fun x h1 h2 => hbd x (by omega) (by omega))
      (fun x h1 h2 => hbs x (by omega) (by omega))
  have hn : n ≤ W * n := Nat.le_mul_of_pos_left n hWpos
  rw [memcompFunc_width be s d (W * n) W mem hs hd hW]
  constructor
  · intro hall
    have hskip := compLoop_skip be W false s d (W * n) mem hWpos n (W * n - n) 0
      (fun j' _ hj2 => by
        have hj : j' < n := by omega
        have := helem j' hj
        refine ⟨by omega, ?_⟩
        simp only [Bool.false_eq_true, if_false]
        refine (hiff j' hj).mpr (fun o ho => ?_)
        rw [Nat.add_assoc, Nat.add_assoc]
        exact hall _ (by omega))
    rw [Nat.sub_add_cancel hn, Nat.mul_zero, Nat.zero_add] at hskip
    have hge := (compLoop_sound be W false s d (W * n) mem hWpos (W * n - n) (W * n)
      (by omega)).1
    rw [hskip]
    unfold compReport
    rw [if_neg (by omega)]
  · intro K hK hne hfirst
    have hdm := Nat.div_add_mod K W
    have hmod : K % W < W := Nat.mod_lt K hWpos
    have he : K / W < n := by
      rw [Nat.div_lt_iff_lt_mul hWpos, Nat.mul_comm]
      exact hK
    have hek := helem (K / W) he
    have hfuel : K / W + 1 ≤ W * n := by omega
    have hskip := compLoop_skip be W false s d (W * n) mem hWpos (K / W) (W * n - K / W) 0
      (fun j' _ hj2 => by
        have hj : j' < n := by omega
        have h1 := helem j' hj
        have h2 : W * j' + W ≤ W * (K / W) := by
          have : W * (j' + 1) ≤ W * (K / W) := Nat.mul_le_mul_left W (by omega)
          rw [Nat.mul_add, Nat.mul_one] at this
          exact this
        refine ⟨by omega, ?_⟩
        simp only [Bool.false_eq_true, if_false]
        refine (hiff j' hj).mpr (fun o ho => ?_)
        rw [Nat.add_assoc, Nat.add_assoc]
        exact hfirst _ (by omega))
    rw [Nat.sub_add_cancel (by omega), Nat.mul_zero, Nat.zero_add] at hskip
    obtain ⟨f, hf⟩ : ∃ f, W * n - K / W = f + 1 := ⟨W * n - K / W - 1, by omega⟩
    rw [hskip, hf, compLoop_succ, if_pos (by omega), Nat.mul_div_cancel_left _ hWpos]
    simp only [Bool.false_eq_true, if_false]
    have hdiff : loadElem be W (d + W * (K / W)) mem ≠ loadElem be W (s + W * (K / W)) mem := by
      intro heq
      have := (hiff (K / W) he).mp heq (K % W) hmod
      rw [Nat.add_assoc, Nat.add_assoc, hdm] at this
      exact hne this
    rw [if_pos hdiff]
    unfold compReport
    rw [if_pos (by omega)]

/-! ## Copy followed by compare on whole elements -/

theorem bswap_lt (W v : Nat) : bswap W v < 256 ^ W := by
  unfold bswap
  exact sum_digits_lt (fun k => byteOf v (W - 1 - k)) W (fun k _ => byteOf_lt v _)

theorem loadElem_lt (be : Bool) (W a : Nat) (mem : Mem)
    (hb : ∀ x, a ≤ x → x < a + W → mem x < 256) : loadElem be W a mem < 256 ^ W := by
  unfold loadElem
  refine sum_digits_lt (fun k => mem (a + (if be then W - 1 - k else k))) W (fun k hk => ?_)
  apply hb
  · omega
  · cases be
    · simp
      omega
    · simp
      omega

/-- After the copy loop between regions that do not overlap, destination element
`i + k` holds the value loaded from source element `i + k`, swapped when `swap` is
set and truncated to `W` bytes, and the source region is unchanged. -/
theorem copyLoop_elem (be : Bool) (W : Nat) (swap : Bool) (s d : Nat) :
    ∀ (n i : Nat) (mem : Mem),
      (s + W * (i + n) ≤ d ∨ d + W * (i + n) ≤ s) →
      (∀ x, s ≤ x → x < s + W * (i + n) → copyLoop be W swap s d n i mem x = mem x) ∧
      (∀ k, k < n →
        loadElem be W (d + W * (i + k)) (copyLoop be W swap s d n i mem) =
          (if swap then bswap W (loadElem be W (s + W * (i + k)) mem)
            else loadElem be W (s + W * (i + k)) mem) % 256 ^ W) := by
  intro n
  induction n with
  | zero =>
    intro i mem _
    exact ⟨fun _ _ _ => rfl, fun k hk => absurd hk (Nat.not_lt_zero k)⟩
  | succ n ih =>
    intro i mem hdis
    have e0 : W * i ≤ W * (i + (n + 1)) := Nat.mul_le_mul_left W (by omega)
    have e1 : W * (i + 1) = W * i + W := by rw [Nat.mul_add, Nat.mul_one]
    have e2 : W * (i + 1 + n) = W * (i + (n + 1)) := by
      congr 1
      omega
    have e3 : W * (i + 1) ≤ W * (i + (n + 1)) := Nat.mul_le_mul_left W (by omega)
    have hsrc : ∀ x, s ≤ x → x < s + W * (i + (n + 1)) →
        copyLoop be W swap s d (n + 1) i mem x = mem x :=
      fun x h1 h2 => copyLoop_outside be W swap s d (n + 1) i mem x (by omega)
    refine ⟨hsrc, fun k hk => ?_⟩
    show loadElem be W (d + W * (i + k))
      (copyLoop be W swap s d n (i + 1)
        (storeElem be W (d + W * i)
          (if swap then bswap W (loadElem be W (s + W * i) mem)
            else loadElem be W (s + W * i) mem) mem)) = _
    cases k with
    | zero =>
      rw [loadElem_congr be W (d + W * (i + 0)) _
        (storeElem be W (d + W * i)
          (if swap then bswap W (loadElem be W (s + W * i) mem)
            else loadElem be W (s + W * i) mem) mem), Nat.add_zero, loadElem_storeElem]
      intro x hx1 hx2
      rw [Nat.add_zero] at hx1 hx2
      exact copyLoop_outside be W swap s d n (i + 1) _ x (by omega)
    | succ k =>
      have e4 : i + (k + 1) = i + 1 + k := by omega
      have e5 : W * (i + 1 + k) + W ≤ W * (i + (n + 1)) := by
        have : W * (i + 1 + k + 1) ≤ W * (i + (n + 1)) := Nat.mul_le_mul_left W (by omega)
        rw [Nat.mul_add, Nat.mul_one] at this
        exact this
      have e6 : W * (i + 1) ≤ W * (i + 1 + k) := Nat.mul_le_mul_left W (by omega)
      rw [e4, (ih (i + 1) _ (by rw [e2]; exact hdis)).2 k (by omega)]
      congr 1
      have hl : loadElem be W (s + W * (i + 1 + k))
          (storeElem be W (d + W * i)
            (if swap then bswap W (loadElem be W (s + W * i) mem)
              else loadElem be W (s + W * i) mem) mem)
          = loadElem be W (s + W * (i + 1 + k)) mem :=
        loadElem_congr be W _ _ _
          (fun x hx1 hx2 => storeElem_outside be W _ _ mem x (by omega))
      rw [hl]

theorem memcopyFunc_loop (be : Bool) (s d N W : Nat) (swap : Bool) (mem : Mem)
    (hs : s ≠ 0) (hd : d ≠ 0)
    (hW : W = 1 ∧ swap = false ∨ W = 2 ∨ W = 4 ∨ W = 8) :
    memcopyFunc be s d N (if swap then -(W : Int) else (W : Int)) mem
      = (UtilsOutcome.done, copyLoop be W swap s d (N / W) 0 mem) := by
  unfold memcopyFunc
  rw [if_neg hs, if_neg hd]
  rcases hW with ⟨rfl, rfl⟩ | rfl | rfl | rfl
  · simp
  · cases swap <;> simp
  · cases swap <;> simp
  · cases swap <;> simp

theorem memcompFunc_loop (be : Bool) (s d N W : Nat) (swap : Bool) (mem : Mem)
    (hs : s ≠ 0) (hd : d ≠ 0)
    (hW : W = 1 ∧ swap = false ∨ W = 2 ∨ W = 4 ∨ W = 8) :
    memcompFunc be s d N (if swap then -(W : Int) else (W : Int)) mem
      = compReport N (compLoop be W swap s d N mem N 0) := by
  unfold memcompFunc
  rw [if_neg hs, if_neg hd]
  rcases hW with ⟨rfl, rfl⟩ | rfl | rfl | rfl
  · simp
  · cases swap <;> simp
  · cases swap <;> simp
  · cases swap <;> simp

/-- For a size that is a multiple of the element width and two mapped buffers
that do not overlap, the source being byte-valued: `memcopyFunc` followed by
`memcompFunc` with the same width (`W` of 1, 2, 4, 8, or `-W` for 2, 4, 8) reports
`OK`. -/
theorem memcopy_memcomp_whole_elements (be : Bool) (s d n W : Nat) (swap : Bool) (mem : Mem)
    (hs : s ≠ 0) (hd : d ≠ 0)
    (hW : W = 1 ∧ swap = false ∨ W = 2 ∨ W = 4 ∨ W = 8)
    (hdis : s + W * n ≤ d ∨ d + W * n ≤ s)
    (hbs : ∀ x, s ≤ x → x < s + W * n → mem x < 256) :
    memcompFunc be s d (W * n) (if swap then -(W : Int) else (W : Int))
      (memcopyFunc be s d (W * n) (if swap then -(W : Int) else (W : Int)) mem).2
      = CompOutcome.ok := by
  have hWpos : 0 < W := by omega
  have hn : n ≤ W * n := Nat.le_mul_of_pos_left n hWpos
  rw [memcopyFunc_loop be s d (W * n) W swap mem hs hd hW,
    memcompFunc_loop be s d (W * n) W swap _ hs hd hW, Nat.mul_div_cancel_left n hWpos]
  obtain ⟨hsrc, helem⟩ := copyLoop_elem be W swap s d n 0 mem
    (by rw [Nat.zero_add]; exact hdis)
  rw [Nat.zero_add] at hsrc
  have hle : ∀ j, j < n → W * j + W ≤ W * n := by
    intro j hj
    have : W * (j + 1) ≤ W * n := Nat.mul_le_mul_left W (by omega)
    rw [Nat.mul_add, Nat.mul_one] at this
    exact this
  have hskip := compLoop_skip be W swap s d (W * n) (copyLoop be W swap s d n 0 mem) hWpos n
    (W * n - n) 0
    (fun j' _ hj2 => by
      have hj : j' < n := by omega
      have h1 := hle j' hj
      refine ⟨by omega, ?_⟩
      have h2 := helem j' hj
      rw [Nat.zero_add] at h2
      have hl : loadElem be W (s + W * j') (copyLoop be W swap s d n 0 mem)
          = loadElem be W (s + W * j') mem :=
        loadElem_congr be W _ _ _ (fun x hx1 hx2 => hsrc x (by omega) (by omega))
      rw [h2, hl]
      apply Nat.mod_eq_of_lt
      cases swap
      · simp only [Bool.false_eq_true, if_false]
        exact loadElem_lt be W _ mem (fun x hx1 hx2 => hbs x (by omega) (by omega))
      · simp only [if_true]
        exact bswap_lt W _)
  rw [Nat.sub_add_cancel hn, Nat.mul_zero, Nat.zero_add] at hskip
  have hge := (compLoop_sound be W swap s d (W * n) (copyLoop be W swap s d n 0 mem) hWpos
    (W * n - n) (W * n) (by omega)).1
  show compReport (W * n)
    (compLoop be W swap s d (W * n) (copyLoop be W swap s d n 0 mem) (W * n) 0) = _
  rw [hskip]
  unfold compReport
  rw [if_neg (by omega)]

end Tosca
